import Mathlib

/-!
Verification development for the SGX downloader ingestion pipeline.

The repository has two pipeline variants:
* the rich SCD-2 pipeline (`src/sgx_downloader/sgx_downloader.py`): catalog
  selection, fetch, checksum-based version store, zip extraction, warehouse
  partitioning and object-store publication;
* the legacy flat variant (`src/sgx_downloader.py`): plain download plus
  extract-and-delete.

Both are shallowly embedded below.  Strings are modelled as Lean `String`
(lists of characters); the filesystem is an association list from path to
file content; the sqlite `file_versions` table is a list of rows in rowid
order; SHA-256 is modelled as an abstract hash function parameter (the code
only ever compares checksums for equality).  All string utilities are
implemented by structural recursion on character lists so that every
definition evaluates by kernel reduction.
-/

/-- File system model: an association list from absolute path to file
content.  `os` / `shutil` calls in the source are modelled as operations on
this map (directory creation is a no-op because only files are tracked). -/
abbrev FS : Type := List (String × String)

/-- Read a file: first entry with the given path, if any. -/
def fsGet (fs : FS) (k : String) : Option String :=
  (fs.find? (fun kv => kv.1 = k)).map (fun kv => kv.2)

/-- Delete a file (no error if absent); models `os.remove` and the delete
half of `shutil.move`. -/
def fsDel (fs : FS) (k : String) : FS :=
  fs.filter (fun kv => ¬ (kv.1 = k))

/-- Create/overwrite a file; models `open(path, "wb").write` and the create
half of `shutil.move`. -/
def fsSet (fs : FS) (k v : String) : FS :=
  fsDel fs k ++ [(k, v)]

/-- ASCII lower-casing of one character; embeds the effect of Python
`str.lower()` on the ASCII file names this pipeline handles. -/
def charLower (c : Char) : Char :=
  if 'A' ≤ c ∧ c ≤ 'Z' then Char.ofNat (c.toNat + 32) else c

/-- Embeds Python `str.lower()` (ASCII fragment). -/
def strToLower (s : String) : String := ⟨s.data.map charLower⟩

/-- Embeds Python `str.endswith(suf)`. -/
def strEndsWith (s suf : String) : Bool := suf.data.isSuffixOf s.data

/-- Embeds Python `str.startswith(p)`. -/
def strStartsWith (s p : String) : Bool := p.data.isPrefixOf s.data

/-- Whitespace test for `str.strip()`. -/
def isWs (c : Char) : Bool := c = ' ' ∨ c = '\t' ∨ c = '\n' ∨ c = '\r'

/-- Embeds Python `str.strip()`. -/
def strTrim (s : String) : String :=
  ⟨((s.data.dropWhile isWs).reverse.dropWhile isWs).reverse⟩

/-- Split a character list at every occurrence of `sep`; embeds Python
`str.split(sep)` for a one-character separator (all separators used by the
source are one character). -/
def splitOnChar (sep : Char) : List Char → List (List Char)
  | [] => [[]]
  | c :: rest =>
    if c = sep then [] :: splitOnChar sep rest
    else
      match splitOnChar sep rest with
      | [] => [[c]]
      | h :: t => (c :: h) :: t

/-- String-level split on a one-character separator. -/
def splitStr (sep : Char) (s : String) : List String :=
  (splitOnChar sep s.data).map (fun l => ⟨l⟩)

/-- Embeds `os.path.basename`: the part after the last slash. -/
def baseName (p : String) : String :=
  ⟨(p.data.reverse.takeWhile (fun c => ¬ (c = '/'))).reverse⟩

/-- Embeds `os.path.dirname`: the part before the last slash (empty when
there is no slash). -/
def dirName (p : String) : String :=
  ⟨((p.data.reverse.dropWhile (fun c => ¬ (c = '/'))).drop 1).reverse⟩

/-- Embeds `pathlib.Path(name).stem` / `.suffix`: split at the last dot,
provided it is neither the first nor the last character; otherwise the
suffix is empty (CPython `pathlib` rule `0 < i < len(name) - 1`). -/
def splitExt (name : String) : String × String :=
  let cs := name.data
  let n := cs.length
  match cs.reverse.findIdx? (fun c => c = '.') with
  | none => (name, "")
  | some j =>
    let i := n - 1 - j
    if 0 < i ∧ i < n - 1 then (⟨cs.take i⟩, ⟨cs.drop i⟩) else (name, "")

/-- The decimal digit character for `n < 10`. -/
def digitChar (n : Nat) : Char := Char.ofNat (48 + n)

/-- Fuel-driven decimal rendering (fuel is always sufficient at `n + 1`). -/
def natDigitsAux : Nat → Nat → List Char
  | 0, _ => []
  | fuel + 1, n =>
    if n < 10 then [digitChar n]
    else natDigitsAux fuel (n / 10) ++ [digitChar (n % 10)]

/-- Decimal digits of a natural number, most significant first; embeds the
Python rendering `f"{n}"` of a non-negative int. -/
def natDigits (n : Nat) : List Char := natDigitsAux (n + 1) n

/-- Embeds the Python f-string rendering `f"{n}"`. -/
def natStr (n : Nat) : String := ⟨natDigits n⟩

/-- Embeds the Python f-string rendering `f"{n:02d}"` for `n < 100` (the
only inputs used: calendar months and days). -/
def pad2 (n : Nat) : String := ⟨[digitChar (n / 10), digitChar (n % 10)]⟩

/-- Parse a non-empty all-digit character list as a decimal number. -/
def digitsToNat (l : List Char) : Nat :=
  l.foldl (fun a c => a * 10 + (c.toNat - 48)) 0

/-- Is `c` an ASCII decimal digit? -/
def isDigitCh (c : Char) : Bool := '0' ≤ c ∧ c ≤ '9'

/-- Parse a digit string of length between `lo` and `hi` (models the digit
groups that CPython strptime directives match). -/
def parseDigits (lo hi : Nat) (s : String) : Option Nat :=
  if lo ≤ s.data.length ∧ s.data.length ≤ hi ∧ s.data.all isDigitCh then
    some (digitsToNat s.data)
  else none

/-- Calendar date, as produced by `datetime.date`. -/
structure Date where
  year : Nat
  month : Nat
  day : Nat
deriving DecidableEq, Repr

/-- Numeric key realising the lexicographic order of Python `date` objects
(faithful for calendar-valid months and days). -/
def dateKey (d : Date) : Nat := d.year * 10000 + d.month * 100 + d.day

/-- Gregorian leap-year rule used by `datetime`. -/
def isLeap (y : Nat) : Bool := y % 4 = 0 ∧ (¬ (y % 100 = 0) ∨ y % 400 = 0)

/-- Number of days of month `m` of year `y` (used by `datetime` date
validation). -/
def daysInMonth (y m : Nat) : Nat :=
  if m = 2 then (if isLeap y then 29 else 28)
  else if m = 4 ∨ m = 6 ∨ m = 9 ∨ m = 11 then 30
  else 31

/-- `datetime.date(y, m, d)` construction: validates ranges and the
calendar, otherwise raises (modelled as `none`). -/
def mkValidDate (y m d : Nat) : Option Date :=
  if 1 ≤ y ∧ y ≤ 9999 ∧ 1 ≤ m ∧ m ≤ 12 ∧ 1 ≤ d ∧ d ≤ daysInMonth y m then
    some ⟨y, m, d⟩
  else none

/-- The twelve lower-cased month abbreviations matched by strptime `%b`
(C locale); the match is case-insensitive. -/
def monthAbbrevs : List String :=
  ["jan", "feb", "mar", "apr", "may", "jun",
   "jul", "aug", "sep", "oct", "nov", "dec"]

/-- Parse a `%b` month abbreviation, case-insensitively. -/
def parseMonthAbbrev (s : String) : Option Nat :=
  match monthAbbrevs.findIdx? (fun m => m = strToLower s) with
  | some i => some (i + 1)
  | none => none

/-- strptime with format `"%d/%m/%Y"`: day and month as 1-2 digit groups,
year as exactly 4 digits, then `datetime` validation. -/
def parseDmySlash (s : String) : Option Date :=
  match splitStr '/' s with
  | [ds, ms, ys] =>
    match parseDigits 1 2 ds, parseDigits 1 2 ms, parseDigits 4 4 ys with
    | some d, some m, some y => mkValidDate y m d
    | _, _, _ => none
  | _ => none

/-- strptime with format `"%Y-%m-%d"`. -/
def parseIso (s : String) : Option Date :=
  match splitStr '-' s with
  | [ys, ms, ds] =>
    match parseDigits 4 4 ys, parseDigits 1 2 ms, parseDigits 1 2 ds with
    | some y, some m, some d => mkValidDate y m d
    | _, _, _ => none
  | _ => none

/-- strptime with format `"%d %b %Y"`. -/
def parseDMonY (s : String) : Option Date :=
  match splitStr ' ' s with
  | [ds, mons, ys] =>
    match parseDigits 1 2 ds, parseMonthAbbrev mons, parseDigits 4 4 ys with
    | some d, some m, some y => mkValidDate y m d
    | _, _, _ => none
  | _ => none

/-- Embeds `_parse_input_date` (sgx_downloader/sgx_downloader.py lines
40-49): empty input gives `None`; otherwise the stripped string is tried
against the three formats `"%d/%m/%Y"`, `"%Y-%m-%d"`, `"%d %b %Y"` in that
order, and `None` is returned when all fail. -/
def parse_input_date (s : String) : Option Date :=
  if s = "" then none
  else
    let t := strTrim s
    match parseDmySlash t with
    | some d => some d
    | none =>
      match parseIso t with
      | some d => some d
      | none => parseDMonY t

/-- Embeds `_parse_item_date` (lines 51-52): strptime `"%d %b %Y"`; a parse
failure raises, modelled as `none`. -/
def parse_item_date (s : String) : Option Date := parseDMonY s

/-!
Section: Catalog Client

Feed items are JSON objects; they are modelled as association lists from
field name to string value (every field this code reads is a string).
-/

/-- A feed item: a JSON object, modelled as an association list. -/
abbrev Dict : Type := List (String × String)

/-- Embeds Python `dict.get(k)`: first binding of `k`, if any. -/
def dget (i : Dict) (k : String) : Option String :=
  (i.find? (fun kv => kv.1 = k)).map (fun kv => kv.2)

/-- The parsed `"Date"` field of an item (used as sort and lookup key). -/
def itemDate (i : Dict) : Option Date :=
  match dget i "Date" with
  | some s => parse_item_date s
  | none => none

/-- Sort key used for the descending sort of feed items (numeric image of
the parsed item date; the default is irrelevant because `_available_items`
fails when any date is unparseable). -/
def itemKeyN (i : Dict) : Nat := dateKey ((itemDate i).getD ⟨0, 0, 0⟩)

/-- Stable descending insertion: `x` goes in front of the first element
whose key is `≤` its own, so equal keys keep their original order exactly
like Python `list.sort(reverse=True)`. -/
def insertDesc (key : Dict → Nat) (x : Dict) : List Dict → List Dict
  | [] => [x]
  | y :: ys => if key y ≤ key x then x :: y :: ys else y :: insertDesc key x ys

/-- Stable descending sort (insertion sort), embedding
`items.sort(key=..., reverse=True)`. -/
def sortDesc (key : Dict → Nat) : List Dict → List Dict
  | [] => []
  | x :: xs => insertDesc key x (sortDesc key xs)

/-- Embeds `_available_items` (lines 54-61) given the decoded `items` array
of the feed response: entries missing `"Date"` or `"key"` are discarded and
the rest are sorted descending by parsed date.  Sorting calls
`_parse_item_date`, which raises on a malformed date; that abort is
modelled as `none`. -/
def available_items (raw : List Dict) : Option (List Dict) :=
  let filtered := raw.filter (fun i => (dget i "Date").isSome ∧ (dget i "key").isSome)
  if filtered.all (fun i => (itemDate i).isSome) then
    some (sortDesc itemKeyN filtered)
  else none

/-- Joins the strings with a separator, embedding Python `sep.join(...)`. -/
def joinWith (sep : String) : List String → String
  | [] => ""
  | [x] => x
  | x :: y :: xs => x ++ sep ++ joinWith sep (y :: xs)

/-- Embeds `_summarize_available_dates` (lines 63-64): the `"Date"` fields
of the first ten items joined by `", "` (every summarised item has a
`"Date"` field in the flow, so the default is unreachable). -/
def summarize_available_dates (items : List Dict) : String :=
  joinWith ", " ((items.take 10).map (fun i => (dget i "Date").getD ""))

/-- Embeds `_select_item_for_date` (lines 66-79).  No items gives `None`;
no target gives the first item; otherwise the target must equal a parsed
item date exactly (`by_date` is a dict comprehension, so for duplicate
dates the last item wins — modelled by searching the reversed list).  On a
miss the function logs the available dates and returns `None`. -/
def select_item_for_date (items : List Dict) (target : Option Date) : Option Dict :=
  match items with
  | [] => none
  | first :: _ =>
    match target with
    | none => some first
    | some t => items.reverse.find? (fun i => itemDate i = some t)

/-!
Section: Version Store (SCD Type 2)

The sqlite table `file_versions(file_name, version_date, checksum,
valid_from, valid_to)` is modelled as a list of rows carrying their rowid;
rows are appended in increasing rowid order.  SHA-256
(`compute_checksum`) is modelled as an abstract function from file content
to checksum string: the code only ever compares checksums for equality.
-/

/-- One row of `file_versions`, with its sqlite rowid. -/
structure Row where
  file_name : String
  version_date : String
  checksum : String
  valid_from : String
  valid_to : Option String
  rowid : Nat
deriving DecidableEq, Repr

/-- Version-store state: table rows, the next fresh rowid, and the local
filesystem. -/
structure Store where
  rows : List Row
  nextId : Nat
  fs : FS
deriving DecidableEq, Repr

/-- Fold step selecting the matching row with the largest rowid. -/
def latStep (fn : String) (acc : Option Row) (r : Row) : Option Row :=
  if r.file_name = fn ∧ r.valid_to = none then
    match acc with
    | none => some r
    | some a => if a.rowid ≤ r.rowid then some r else some a
  else acc

/-- The current row for `fn`: embeds
`SELECT rowid, checksum FROM file_versions WHERE file_name = ? AND
valid_to IS NULL ORDER BY rowid DESC LIMIT 1` — the matching row with the
largest rowid. -/
def latestCurrent (rows : List Row) (fn : String) : Option Row :=
  rows.foldl (latStep fn) none

/-- Embeds `UPDATE file_versions SET valid_to = ? WHERE rowid = ?`. -/
def closeRow (rows : List Row) (rid : Nat) (today : String) : List Row :=
  rows.map (fun r => if r.rowid = rid then { r with valid_to := some today } else r)

/-- Number of rows that are current for `fn`. -/
def countCurrent (rows : List Row) (fn : String) : Nat :=
  rows.countP (fun r => r.file_name = fn ∧ r.valid_to = none)

/-- Result of `store_if_changed`: Python returns the stored path, or `None`
for unchanged content; `err` models an uncaught exception (staged file
missing), which leaves the state untouched. -/
inductive StoreOutcome where
  | stored (final_path : String)
  | unchanged
  | err
deriving DecidableEq, Repr

/-- The `version_date`-suffixed name: `f"{stem}_{today}{suffix}"` of
lines 121-122. -/
def versionedPath (final_dir file_name today : String) : String :=
  final_dir ++ "/" ++ ((splitExt file_name).1 ++ "_" ++ today ++ (splitExt file_name).2)

/-- The store-new-version half of `store_if_changed` (lines 121-133):
move the staged file to the versioned final path, close the current row if
one exists, insert the fresh current row, commit. -/
def storeNewVersion (st : Store) (file_name final_dir today checksum content file_path : String)
    (closeId : Option Nat) : StoreOutcome × Store :=
  let final_path := versionedPath final_dir file_name today
  let rows1 := match closeId with
    | some rid => closeRow st.rows rid today
    | none => st.rows
  (StoreOutcome.stored final_path,
   { rows := rows1 ++
       [{ file_name := file_name, version_date := today, checksum := checksum,
          valid_from := today, valid_to := none, rowid := st.nextId }],
     nextId := st.nextId + 1,
     fs := fsSet (fsDel st.fs file_path) final_path content })

/-- Embeds `store_if_changed` (lines 103-136).  `today` is the string
`str(date.today())` of line 107; the checksum of the staged file is
`hashOf` of its content. -/
def store_if_changed (hashOf : String → String) (st : Store)
    (file_path final_dir today : String) : StoreOutcome × Store :=
  let file_name := baseName file_path
  match fsGet st.fs file_path with
  | none => (StoreOutcome.err, st)
  | some content =>
    let checksum := hashOf content
    match latestCurrent st.rows file_name with
    | some latest =>
      if latest.checksum = checksum then
        (StoreOutcome.unchanged, { st with fs := fsDel st.fs file_path })
      else storeNewVersion st file_name final_dir today checksum content file_path (some latest.rowid)
    | none => storeNewVersion st file_name final_dir today checksum content file_path none

/-- State left behind when the process dies after the `shutil.move` of
line 124 but before the `conn.commit()` of line 132: sqlite rolls the
uncommitted UPDATE/INSERT back, while the completed file move persists.
`none` means the run had no such crash window (unchanged or error path:
the move never happens there). -/
def store_if_changed_crash_after_move (hashOf : String → String) (st : Store)
    (file_path final_dir today : String) : Option Store :=
  let file_name := baseName file_path
  match fsGet st.fs file_path with
  | none => none
  | some content =>
    let checksum := hashOf content
    let moved : Store :=
      { st with fs := fsSet (fsDel st.fs file_path) (versionedPath final_dir file_name today) content }
    match latestCurrent st.rows file_name with
    | some latest =>
      if latest.checksum = checksum then none else some moved
    | none => some moved

/-- One sequential commit of the claimed invariant trace: the caller stages
`content` at `file_path` and then runs `store_if_changed`. -/
structure OpC where
  file_path : String
  content : String
  final_dir : String
  today : String
deriving DecidableEq, Repr

/-- Execute one staged commit. -/
def execOp (hashOf : String → String) (st : Store) (op : OpC) : Store :=
  (store_if_changed hashOf { st with fs := fsSet st.fs op.file_path op.content }
    op.file_path op.final_dir op.today).2

/-- Execute a sequence of commits starting from the empty table. -/
def execOps (hashOf : String → String) (ops : List OpC) : Store :=
  ops.foldl (execOp hashOf) { rows := [], nextId := 0, fs := [] }

/-!
Section: Directories, partition paths and object-store keys

The directory constants take their in-container values (lines 12-19 of
sgx_downloader/sgx_downloader.py; outside docker the same relative layout
is placed under the working directory).
-/

def DOWNLOAD_DIR : String := "/data/raw"

def REFERENCE_DIR : String := "/data/reference"

def WAREHOUSE_DIR : String := "/data/warehouse"

def LINKS_BASE : String := "https://links.sgx.com/1.0.0/derivatives-historical"

/-- Embeds `build_download_url` (lines 165-166). -/
def build_download_url (key filename : String) : String :=
  LINKS_BASE ++ "/" ++ key ++ "/" ++ filename

/-- Embeds `_partition_dir` (lines 182-183):
`os.path.join(WAREHOUSE_DIR, table, f"year={y}", f"month={m:02d}", f"day={d:02d}")`. -/
def partition_dir (table : String) (d : Date) : String :=
  WAREHOUSE_DIR ++ "/" ++ table ++ "/year=" ++ natStr d.year ++
    "/month=" ++ pad2 d.month ++ "/day=" ++ pad2 d.day

/-- Embeds the object key of `upload_warehouse_file` (lines 155-156):
`f"{root_prefix}/{table}/year={y}/month={m:02d}/day={d:02d}/{basename}"`
with the default root `"derivative_data"`. -/
def upload_warehouse_key (local_path table : String) (d : Date) : String :=
  "derivative_data" ++ "/" ++ table ++ "/year=" ++ natStr d.year ++
    "/month=" ++ pad2 d.month ++ "/day=" ++ pad2 d.day ++ "/" ++ baseName local_path

/-- Embeds the object key of `push_to_minio` (lines 147-149):
`f"{prefix}/{basename}"`. -/
def push_key (pfx local_path : String) : String := pfx ++ "/" ++ baseName local_path

/-!
Section: Run model (rich pipeline)

The run-level state adds the chronological list of object-store keys
published so far; a publish failure is logged and non-fatal (lines 152-153,
160-161), so publication is modelled as always appending its key.  The
environment packages the external collaborators: the decoded feed items,
the HTTP response (status, body) per URL, the zip extractor (member name →
content list, `none` for a `BadZipFile`), the content hash, and the
commit-date string `str(date.today())`.
-/

structure RunState where
  store : Store
  uploads : List String
deriving DecidableEq, Repr

structure Env where
  items : List Dict
  fetch : String → Nat × String
  unzip : String → Option (List (String × String))
  hashOf : String → String
  today : String

/-- Embeds `download` of the rich variant (lines 168-180): a non-200
status returns `None` with no write; otherwise the body is streamed
directly to `os.path.join(target_dir, filename)` and that path returned.
`status`/`body` stand for the `requests.get(url, stream=True)` response. -/
def download_rich (status : Nat) (body : String) (fs : FS)
    (filename target_dir : String) : Option String × FS :=
  let path := target_dir ++ "/" ++ filename
  if ¬ (status = 200) then (none, fs)
  else (some path, fsSet fs path body)

/-- Remove every file under directory `dir`; models
`shutil.rmtree(dir, ignore_errors=True)` (which never raises). -/
def rmAllUnder (fs : FS) (dir : String) : FS :=
  fs.filter (fun kv => ¬ (strStartsWith kv.1 (dir ++ "/") = true))

/-- One member write of `zip_ref.extractall(extract_dir)` (line 209). -/
def extractStep (edir : String) (a : FS) (m : String × String) : FS :=
  fsSet a (edir ++ "/" ++ m.1) m.2

/-- One iteration of the member loop of `move_to_warehouse_and_upload`
(lines 188-193): `shutil.move` the member from the extraction directory to
the partition directory, then publish it under its warehouse key. -/
def mwuStep (edir table : String) (d : Date) (acc : RunState) (m : String × String) : RunState :=
  { store := { acc.store with
      fs := fsSet (fsDel acc.store.fs (edir ++ "/" ++ m.1))
        (partition_dir table d ++ "/" ++ m.1) m.2 },
    uploads := acc.uploads ++ [upload_warehouse_key (partition_dir table d ++ "/" ++ m.1) table d] }

/-- Embeds `move_to_warehouse_and_upload` (lines 185-194): create the
partition directory, move every member of the extraction directory into
it, publish each moved file under its warehouse key, then remove the
extraction directory tree (`shutil.rmtree(..., ignore_errors=True)`:
best-effort, never raises).  `members` are the (name, content) pairs
sitting in `edir`, in `os.listdir` order. -/
def move_to_warehouse_and_upload (st : RunState) (edir : String)
    (members : List (String × String)) (table : String) (d : Date) : RunState :=
  let st1 := members.foldl (mwuStep edir table d) st
  { st1 with store := { st1.store with fs := rmAllUnder st1.store.fs edir } }

/-- Embeds `process_file` (lines 196-217): commit via the version store
(`None` for unchanged), publish the stored file under its flat key, and if
a warehouse table applies and the stored name is a zip, extract into a
fresh `/tmp` directory and distribute; a `BadZipFile` is caught and
logged; the zip itself is deliberately kept (line 212).  `none` models an
uncaught exception. -/
def process_file (env : Env) (st : RunState) (file_path final_dir upload_pfx : String)
    (day : Date) (table_for_zip : Option String) : Option (Option String × RunState) :=
  match store_if_changed env.hashOf st.store file_path final_dir env.today with
  | (StoreOutcome.err, _) => none
  | (StoreOutcome.unchanged, s1) => some (none, { st with store := s1 })
  | (StoreOutcome.stored stored_path, s1) =>
    let st1 : RunState :=
      { store := s1, uploads := st.uploads ++ [push_key upload_pfx stored_path] }
    match table_for_zip with
    | none => some (some stored_path, st1)
    | some table =>
      if strEndsWith (strToLower stored_path) ".zip" then
        match fsGet st1.store.fs stored_path with
        | none => none
        | some content =>
          match env.unzip content with
          | none => some (some stored_path, st1)
          | some members =>
            let edir := "/tmp/" ++ (splitExt (baseName stored_path)).1
            let st2 : RunState :=
              { st1 with store :=
                  { st1.store with
                    fs := members.foldl (extractStep edir) st1.store.fs } }
            some (some stored_path, move_to_warehouse_and_upload st2 edir members table day)
      else some (some stored_path, st1)

/-- The per-artifact routing of `download_all_files` (lines 256-259):
final directory, object-store key root, and warehouse table mapping. -/
def routeFor (filename : String) : String × String × Option String :=
  let is_schema := strEndsWith filename "_structure.dat"
  (if is_schema then REFERENCE_DIR else DOWNLOAD_DIR,
   if is_schema then "derivative_reference" else "raw",
   if strEndsWith (strToLower filename) ".zip" then some "WEBPXTICK_DT" else none)

/-- The four well-known artifact kinds (lines 237-242). -/
def file_keys : List (String × String) :=
  [("Data File Link", "Data File"),
   ("Tick Data Structure File Link", "Tick Data Structure File"),
   ("TC Data File Link", "TC Data File"),
   ("TC Data Structure File Link", "TC Data Structure File")]

/-- The artifact loop of `download_all_files` (lines 244-269): for each
artifact kind present on the item (Python truthiness: an empty link or
name also skips), fetch to the staging directory, route, and process;
returns the list of stored paths.  `none` models an uncaught exception. -/
def processKeys (env : Env) (sel : Dict) (key : String) (day : Date) :
    RunState → List (String × String) → Option (List String × RunState)
  | st, [] => some ([], st)
  | st, (link_key, name_key) :: rest =>
    match dget sel link_key, dget sel name_key with
    | some link, some filename =>
      if link = "" ∨ filename = "" then processKeys env sel key day st rest
      else
        let resp := env.fetch (build_download_url key filename)
        match download_rich resp.1 resp.2 st.store.fs filename DOWNLOAD_DIR with
        | (none, _) => processKeys env sel key day st rest
        | (some temp, fs1) =>
          let st1 : RunState := { st with store := { st.store with fs := fs1 } }
          let route := routeFor filename
          match process_file env st1 temp route.1 route.2.1 day route.2.2 with
          | none => none
          | some (storedOpt, st2) =>
            match processKeys env sel key day st2 rest with
            | none => none
            | some (files, stF) =>
              some ((match storedOpt with | some p => [p] | none => []) ++ files, stF)
    | _, _ => processKeys env sel key day st rest

/-- Embeds `download_all_files` of the rich variant (lines 220-271).
The outer `none` models an uncaught exception (malformed feed); the inner
option is the Python return value: the selected display date when at least
one artifact was stored, else `None`. -/
def download_all_files (env : Env) (st0 : RunState) (target_date : Option String) :
    Option (Option String × RunState) :=
  match available_items env.items with
  | none => none
  | some items =>
    if items = [] then some (none, st0)
    else
      let target := match target_date with
        | none => none
        | some s => parse_input_date s
      match select_item_for_date items target with
      | none => some (none, st0)
      | some selected =>
        match dget selected "Date", dget selected "key" with
        | some disp, some key =>
          match parse_item_date disp with
          | none => none
          | some day =>
            match processKeys env selected key day st0 file_keys with
            | none => none
            | some (new_files, stF) =>
              some ((if new_files = [] then none else some disp), stF)
        | _, _ => none

/-!
Section: Legacy flat variant (src/sgx_downloader.py)
-/

/-- Embeds `extract_if_zip` of the flat variant (lines 45-57): extract a
zip next to itself and then delete the zip; a `BadZipFile` is caught,
leaving the file untouched.  (A missing file would raise a different,
uncaught error; that path is unreachable from `download`.) -/
def extract_if_zip (unzip : String → Option (List (String × String)))
    (fs : FS) (filepath : String) : FS :=
  if ¬ (strEndsWith (strToLower filepath) ".zip") then fs
  else
    match fsGet fs filepath with
    | none => fs
    | some content =>
      match unzip content with
      | none => fs
      | some members =>
        let dir := dirName filepath
        fsDel (members.foldl (fun a m => fsSet a (dir ++ "/" ++ m.1) m.2) fs) filepath

/-- Embeds `download` of the flat variant (lines 60-84): skip when the
path already exists; a non-200 status or a body of fewer than 10 bytes is
rejected before any write; otherwise the body is written and the file
extracted if it is a zip. -/
def download_flat (unzip : String → Option (List (String × String)))
    (status : Nat) (body : String) (fs : FS) (filename : String) : FS :=
  let path := "downloads" ++ "/" ++ filename
  if (fsGet fs path).isSome then fs
  else if ¬ (status = 200) then fs
  else if body.data.length < 10 then fs
  else extract_if_zip unzip (fsSet fs path body) path

/-!
Section: Concrete fixtures

Small concrete feeds, environments and states used to instantiate the
general theorems on explicit inputs.  `idHash` instantiates the abstract
checksum function (any function works; the code only compares checksums
for equality).
-/

def idHash : String → String := fun s => s

def runState0 : RunState := { store := { rows := [], nextId := 0, fs := [] }, uploads := [] }

def itemTC : Dict :=
  [("Date", "07 Mar 2024"), ("key", "K1"),
   ("TC Data File Link", "L"), ("TC Data File", "TC_20240307.zip")]

/-- A feed whose only present artifact kind is the secondary "TC" data
file, published as a zip container. -/
def envTC : Env :=
  { items := [itemTC],
    fetch := fun url =>
      if url = "https://links.sgx.com/1.0.0/derivatives-historical/K1/TC_20240307.zip"
      then (200, "zipbytes") else (404, ""),
    unzip := fun c => if c = "zipbytes" then some [("member.csv", "x")] else none,
    hashOf := idHash,
    today := "2024-03-07" }

def itemDF : Dict :=
  [("Date", "07 Mar 2024"), ("key", "K1"),
   ("Data File Link", "L"), ("Data File", "F.txt")]

/-- A feed offering one plain data file whose content `"hello"` is already
recorded as the current version in `stDF`. -/
def envDF : Env :=
  { items := [itemDF],
    fetch := fun _ => (200, "hello"),
    unzip := fun _ => none,
    hashOf := idHash,
    today := "2024-03-07" }

def stDF : RunState :=
  { store :=
      { rows := [{ file_name := "F.txt", version_date := "2024-03-06", checksum := "hello",
                   valid_from := "2024-03-06", valid_to := none, rowid := 0 }],
        nextId := 1, fs := [] },
    uploads := [] }

def item07 : Dict := [("Date", "07 Mar 2024"), ("key", "A")]

def item06 : Dict := [("Date", "06 Mar 2024"), ("key", "B")]

/-- The raw feed of the spec's date-resolution example, deliberately given
oldest first so that the descending sort is exercised. -/
def feedTwoDays : List Dict := [item06, item07]

/-- A trivial environment (empty feed). -/
def envEmpty : Env :=
  { items := [], fetch := fun _ => (404, ""), unzip := fun _ => none,
    hashOf := idHash, today := "2024-03-07" }

/-- A store holding one current version record for `f.txt` (checksum
`"old"`) and a staged file with different content `"new"`. -/
def rowOld : Row :=
  { file_name := "f.txt", version_date := "2024-03-06", checksum := "old",
    valid_from := "2024-03-06", valid_to := none, rowid := 0 }

def stChanged : Store :=
  { rows := [rowOld], nextId := 1, fs := [("/data/raw/f.txt", "new")] }

/-- A store with an empty version table and one staged file (used for the
crash-window evaluation). -/
def stFresh : Store :=
  { rows := [], nextId := 0, fs := [("/data/raw/f.txt", "hello")] }

/-- A run state whose staging area holds a zip container at
`/data/raw/x.zip`, with an empty version table. -/
def stZip : RunState :=
  { store := { rows := [], nextId := 0, fs := [("/data/raw/x.zip", "zipbytes")] },
    uploads := [] }

/-- Hypothesis packaging for the idempotent-run theorem: every artifact
kind of the selected item that is present (Python-truthy) and whose fetch
succeeds carries a slash-free name whose current version record already
has the checksum of the fetched body. -/
def allUnchanged (env : Env) (sel : Dict) (key : String) (rows : List Row)
    (ks : List (String × String)) : Prop :=
  ∀ lk nk, (lk, nk) ∈ ks → ∀ link fn, dget sel lk = some link → dget sel nk = some fn →
    ¬ link = "" → ¬ fn = "" →
    ∀ body, env.fetch (build_download_url key fn) = (200, body) →
      (¬ ('/' ∈ fn.data)) ∧
      ∃ r, latestCurrent rows fn = some r ∧ r.checksum = env.hashOf body

/-!
Section: Generic helper lemmas
-/

theorem find?_filter_of_imp {α : Type} (p q : α → Bool) (l : List α)
    (h : ∀ a, p a = true → q a = true) : (l.filter q).find? p = l.find? p := by
  induction l with
  | nil => rfl
  | cons x t ih =>
    by_cases hq : q x = true
    · simp only [List.filter_cons, hq, if_true]
      by_cases hp : p x = true
      · simp [List.find?_cons, hp]
      · simp only [List.find?_cons, hp]
        simp only [Bool.not_eq_true] at hp
        simp [hp, ih]
    · have hp : p x = false := by
        cases hpx : p x with
        | false => rfl
        | true => exact absurd (h x hpx) hq
      simp only [Bool.not_eq_true] at hq
      simp [List.filter_cons, hq, List.find?_cons, hp, ih]

theorem find?_fsDel_self (fs : FS) (k : String) :
    (fsDel fs k).find? (fun kv => kv.1 = k) = none := by
  rw [List.find?_eq_none]
  intro x hx
  have hmem := List.of_mem_filter hx
  simp only [decide_not, Bool.not_eq_true', decide_eq_false_iff_not] at hmem
  simp [hmem]

theorem fsGet_fsSet_self (fs : FS) (k v : String) : fsGet (fsSet fs k v) k = some v := by
  unfold fsGet fsSet
  rw [List.find?_append, find?_fsDel_self]
  simp [List.find?]

theorem fsGet_fsSet_ne (fs : FS) (k v k' : String) (h : ¬ (k' = k)) :
    fsGet (fsSet fs k v) k' = fsGet fs k' := by
  unfold fsGet fsSet fsDel
  rw [List.find?_append]
  have h1 : ([(k, v)] : FS).find? (fun kv => kv.1 = k') = none := by
    have hkk : ¬ (k = k') := fun hc => h hc.symm
    simp [List.find?, hkk]
  rw [h1, find?_filter_of_imp]
  · cases ((fs.find? (fun kv => kv.1 = k'))) <;> rfl
  · intro a ha
    simp only [decide_eq_true_eq] at ha
    simp [ha, h]

theorem fsGet_fsDel_ne (fs : FS) (k k' : String) (h : ¬ (k' = k)) :
    fsGet (fsDel fs k) k' = fsGet fs k' := by
  unfold fsGet fsDel
  rw [find?_filter_of_imp]
  intro a ha
  simp only [decide_eq_true_eq] at ha
  simp [ha, h]

theorem fsGet_fsDel_self (fs : FS) (k : String) : fsGet (fsDel fs k) k = none := by
  unfold fsGet fsDel
  rw [List.find?_eq_none.2]
  · rfl
  · intro a ha
    have := List.of_mem_filter ha
    simp only [decide_not, Bool.not_eq_true', decide_eq_false_iff_not] at this
    simp [this]

theorem countP_le_one_unique {α : Type} (p : α → Bool) (l : List α)
    (h : l.countP p ≤ 1) (a : α) (ha : a ∈ l) (hpa : p a = true)
    (b : α) (hb : b ∈ l) (hpb : p b = true) : a = b := by
  induction l with
  | nil => cases ha
  | cons x t ih =>
    by_cases hx : p x = true
    · have ht : t.countP p = 0 := by
        rw [List.countP_cons_of_pos _ _ hx] at h
        omega
      have htnone : ∀ c ∈ t, ¬ p c = true := List.countP_eq_zero.1 ht
      cases ha with
      | head => cases hb with
        | head => rfl
        | tail _ hbt => exact absurd hpb (htnone b hbt)
      | tail _ hat => exact absurd hpa (htnone a hat)
    · cases ha with
      | head => exact absurd hpa hx
      | tail _ hat =>
        cases hb with
        | head => exact absurd hpb hx
        | tail _ hbt =>
          have h' : t.countP p ≤ 1 := by
            rw [List.countP_cons] at h
            omega
          exact ih h' hat hbt

/-!
Section: Version store lemmas (towards the uniqueness invariant)
-/

theorem latestCurrent_eq_foldl (rows : List Row) (fn : String) :
    latestCurrent rows fn = rows.foldl (latStep fn) none := rfl

theorem latStep_foldl_some (fn : String) (rows : List Row) (r : Row) :
    ∀ acc, rows.foldl (latStep fn) acc = some r →
      acc = some r ∨ (r ∈ rows ∧ r.file_name = fn ∧ r.valid_to = none) := by
  induction rows with
  | nil => intro acc h; exact Or.inl h
  | cons x t ih =>
    intro acc h
    rcases ih (latStep fn acc x) h with h1 | h1
    · unfold latStep at h1
      by_cases hc : x.file_name = fn ∧ x.valid_to = none
      · simp only [hc, if_true] at h1
        cases acc with
        | none =>
          have hxr : x = r := by injection h1
          exact Or.inr ⟨hxr ▸ List.mem_cons_self x t, hxr ▸ hc⟩
        | some a =>
          by_cases hle : a.rowid ≤ x.rowid
          · simp only [hle, if_true] at h1
            have hxr : x = r := by injection h1
            exact Or.inr ⟨hxr ▸ List.mem_cons_self x t, hxr ▸ hc⟩
          · simp only [hle, if_false] at h1
            exact Or.inl h1
      · simp only [hc, if_false] at h1
        exact Or.inl h1
    · exact Or.inr ⟨List.mem_cons_of_mem x h1.1, h1.2⟩

theorem latestCurrent_some (rows : List Row) (fn : String) (r : Row)
    (h : latestCurrent rows fn = some r) :
    r ∈ rows ∧ r.file_name = fn ∧ r.valid_to = none := by
  rw [latestCurrent_eq_foldl] at h
  rcases latStep_foldl_some fn rows r none h with h1 | h1
  · cases h1
  · exact h1

theorem latStep_foldl_none (fn : String) (rows : List Row) :
    ∀ acc, rows.foldl (latStep fn) acc = none →
      acc = none ∧ ∀ x ∈ rows, ¬ (x.file_name = fn ∧ x.valid_to = none) := by
  induction rows with
  | nil => intro acc h; exact ⟨h, by intro x hx; cases hx⟩
  | cons x t ih =>
    intro acc h
    rcases ih (latStep fn acc x) h with ⟨h1, h2⟩
    unfold latStep at h1
    by_cases hc : x.file_name = fn ∧ x.valid_to = none
    · simp only [hc, if_true] at h1
      cases acc with
      | none => cases h1
      | some a =>
        by_cases hle : a.rowid ≤ x.rowid
        · simp [hle] at h1
        · simp [hle] at h1
    · simp only [hc, if_false] at h1
      refine ⟨h1, ?_⟩
      intro y hy
      cases hy with
      | head => exact hc
      | tail _ hyt => exact h2 y hyt

theorem latestCurrent_none (rows : List Row) (fn : String)
    (h : latestCurrent rows fn = none) : countCurrent rows fn = 0 := by
  rw [latestCurrent_eq_foldl] at h
  rcases latStep_foldl_none fn rows none h with ⟨-, h2⟩
  unfold countCurrent
  rw [List.countP_eq_zero]
  intro a ha
  simp only [decide_eq_true_eq]
  exact h2 a ha

theorem countCurrent_closeRow_le (rows : List Row) (rid : Nat) (today : String) (g : String) :
    countCurrent (closeRow rows rid today) g ≤ countCurrent rows g := by
  unfold countCurrent closeRow
  rw [List.countP_map]
  refine List.countP_mono_left ?_
  intro r _ hr
  simp only [Function.comp_apply, decide_eq_true_eq] at hr
  by_cases hid : r.rowid = rid
  · simp only [hid, if_true] at hr
    cases hr.2
  · simp only [hid, if_false] at hr
    simp [hr.1, hr.2]

theorem countCurrent_closeRow_latest (rows : List Row) (fn : String) (r : Row) (today : String)
    (hlat : latestCurrent rows fn = some r)
    (hle : countCurrent rows fn ≤ 1) :
    countCurrent (closeRow rows r.rowid today) fn = 0 := by
  obtain ⟨hmem, hfn, hto⟩ := latestCurrent_some rows fn r hlat
  unfold countCurrent closeRow
  rw [List.countP_eq_zero]
  intro a ha
  simp only [decide_eq_true_eq]
  rcases List.mem_map.1 ha with ⟨b, hb, hba⟩
  by_cases hid : b.rowid = r.rowid
  · simp only [hid, if_true] at hba
    intro hcon
    rw [← hba] at hcon
    cases hcon.2
  · simp only [hid, if_false] at hba
    intro hcon
    rw [← hba] at hcon
    have hb_eq : b = r := by
      refine countP_le_one_unique _ rows hle b hb ?_ r hmem ?_
      · simp [hcon.1, hcon.2]
      · simp [hfn, hto]
    exact hid (by rw [hb_eq])

theorem countCurrent_append_new (rows : List Row) (nr : Row) (g : String) :
    countCurrent (rows ++ [nr]) g =
      countCurrent rows g + (if nr.file_name = g ∧ nr.valid_to = none then 1 else 0) := by
  unfold countCurrent
  rw [List.countP_append]
  congr 1
  by_cases h : nr.file_name = g ∧ nr.valid_to = none
  · simp [List.countP, List.countP.go, h]
  · simp [List.countP, List.countP.go, h]

/-- One `store_if_changed` call preserves "at most one current row per
file name". -/
theorem store_if_changed_preserves_unique (hashOf : String → String) (st : Store)
    (fp dir today : String) (h : ∀ g, countCurrent st.rows g ≤ 1) :
    ∀ g, countCurrent (store_if_changed hashOf st fp dir today).2.rows g ≤ 1 := by
  intro g
  unfold store_if_changed
  cases hget : fsGet st.fs fp with
  | none => simpa using h g
  | some content =>
    simp only
    cases hlat : latestCurrent st.rows (baseName fp) with
    | some r =>
      simp only
      by_cases hc : r.checksum = hashOf content
      · simpa [hc] using h g
      · simp only [hc, if_false]
        unfold storeNewVersion
        simp only
        rw [countCurrent_append_new]
        by_cases hg : g = baseName fp
        · subst hg
          rw [countCurrent_closeRow_latest st.rows (baseName fp) r today hlat (h (baseName fp))]
          simp
        · have hne : ¬ (baseName fp = g) := fun hcon => hg hcon.symm
          have hle2 := countCurrent_closeRow_le st.rows r.rowid today g
          have hle3 := h g
          simp only [hne, false_and, if_false, Nat.add_zero]
          omega
    | none =>
      simp only
      unfold storeNewVersion
      simp only
      rw [countCurrent_append_new]
      by_cases hg : g = baseName fp
      · subst hg
        rw [latestCurrent_none st.rows (baseName fp) hlat]
        simp
      · have hne : ¬ (baseName fp = g) := fun hcon => hg hcon.symm
        have hle3 := h g
        simp only [hne, false_and, if_false, Nat.add_zero]
        omega

theorem execOps_unique (hashOf : String → String) (ops : List OpC) :
    ∀ st : Store, (∀ g, countCurrent st.rows g ≤ 1) →
      ∀ g, countCurrent (ops.foldl (execOp hashOf) st).rows g ≤ 1 := by
  induction ops with
  | nil => intro st h g; exact h g
  | cons op rest ih =>
    intro st h g
    rw [List.foldl_cons]
    refine ih (execOp hashOf st op) ?_ g
    intro g'
    unfold execOp
    exact store_if_changed_preserves_unique hashOf
      { st with fs := fsSet st.fs op.file_path op.content } op.file_path op.final_dir op.today
      (by intro g''; exact h g'') g'

/-!
Section: String lemmas
-/

theorem strData_append (a b : String) : (a ++ b).data = a.data ++ b.data := by
  cases a with
  | mk da => cases b with
    | mk db => rfl

theorem string_mk_data (s : String) : (⟨s.data⟩ : String) = s := by
  cases s
  rfl

theorem takeWhile_append_stop (p : Char → Bool) (xs ys : List Char) (y : Char)
    (hxs : ∀ x ∈ xs, p x = true) (hy : p y = false) :
    (xs ++ y :: ys).takeWhile p = xs := by
  induction xs with
  | nil => simp [List.takeWhile, hy]
  | cons x t ih =>
    have hx : p x = true := hxs x (List.mem_cons_self x t)
    simp only [List.cons_append, List.takeWhile_cons, hx, if_true]
    rw [ih (fun z hz => hxs z (List.mem_cons_of_mem x hz))]

theorem dropWhile_append_stop (p : Char → Bool) (xs ys : List Char) (y : Char)
    (hxs : ∀ x ∈ xs, p x = true) (hy : p y = false) :
    (xs ++ y :: ys).dropWhile p = y :: ys := by
  induction xs with
  | nil => simp [List.dropWhile, hy]
  | cons x t ih =>
    have hx : p x = true := hxs x (List.mem_cons_self x t)
    simp only [List.cons_append, List.dropWhile_cons, hx, if_true]
    exact ih (fun z hz => hxs z (List.mem_cons_of_mem x hz))

theorem baseName_concat (d fn : String) (h : ¬ ('/' ∈ fn.data)) :
    baseName (d ++ "/" ++ fn) = fn := by
  unfold baseName
  have hdata : (d ++ "/" ++ fn).data = (d.data ++ ['/']) ++ fn.data := by
    rw [strData_append, strData_append]
  rw [hdata, List.reverse_append, List.reverse_append]
  simp only [List.reverse_cons, List.reverse_nil, List.nil_append, List.cons_append]
  rw [takeWhile_append_stop _ fn.data.reverse _ '/'
      (by
        intro x hx
        have hxmem : x ∈ fn.data := List.mem_reverse.1 hx
        have hxne : ¬ (x = '/') := fun hc => h (hc ▸ hxmem)
        simp [hxne])
      (by simp)]
  rw [List.reverse_reverse]

/-!
Section: Version store branch characterisations
-/

theorem store_if_changed_unchanged_eq (hashOf : String → String) (st : Store)
    (fp dir today c : String) (r : Row)
    (hget : fsGet st.fs fp = some c)
    (hlat : latestCurrent st.rows (baseName fp) = some r)
    (hsum : r.checksum = hashOf c) :
    store_if_changed hashOf st fp dir today =
      (StoreOutcome.unchanged, { st with fs := fsDel st.fs fp }) := by
  unfold store_if_changed
  rw [hget]
  simp only [hlat, hsum, if_true]

theorem store_if_changed_stored_close_eq (hashOf : String → String) (st : Store)
    (fp dir today c : String) (r : Row)
    (hget : fsGet st.fs fp = some c)
    (hlat : latestCurrent st.rows (baseName fp) = some r)
    (hsum : ¬ (r.checksum = hashOf c)) :
    store_if_changed hashOf st fp dir today =
      storeNewVersion st (baseName fp) dir today (hashOf c) c fp (some r.rowid) := by
  unfold store_if_changed
  rw [hget]
  simp only [hlat]
  rw [if_neg hsum]

theorem store_if_changed_stored_first_eq (hashOf : String → String) (st : Store)
    (fp dir today c : String)
    (hget : fsGet st.fs fp = some c)
    (hlat : latestCurrent st.rows (baseName fp) = none) :
    store_if_changed hashOf st fp dir today =
      storeNewVersion st (baseName fp) dir today (hashOf c) c fp none := by
  unfold store_if_changed
  rw [hget]
  simp only [hlat]

theorem storeNewVersion_eq (st : Store) (file_name dir today checksum content fp : String)
    (closeId : Option Nat) :
    storeNewVersion st file_name dir today checksum content fp closeId =
      (StoreOutcome.stored (versionedPath dir file_name today),
       { rows := (match closeId with
           | some rid => closeRow st.rows rid today
           | none => st.rows) ++
           [{ file_name := file_name, version_date := today, checksum := checksum,
              valid_from := today, valid_to := none, rowid := st.nextId }],
         nextId := st.nextId + 1,
         fs := fsSet (fsDel st.fs fp) (versionedPath dir file_name today) content }) := rfl

theorem closeRow_rowid_closed (rows : List Row) (rid : Nat) (today : String) :
    ∀ rr ∈ closeRow rows rid today, rr.rowid = rid → rr.valid_to = some today := by
  intro rr hrr hid
  rcases List.mem_map.1 hrr with ⟨b, hb, hba⟩
  by_cases hbid : b.rowid = rid
  · rw [← hba]
    simp [hbid]
  · rw [← hba] at hid ⊢
    simp only [hbid, if_false] at hid ⊢

theorem closeRow_length (rows : List Row) (rid : Nat) (today : String) :
    (closeRow rows rid today).length = rows.length := List.length_map rows _

/-- Claim C1: across any sequence of sequential commits
(`store_if_changed`) starting from an empty `file_versions` table, at most
one `VersionRecord` per file name is current (`valid_to = NULL`) at any
observation point. -/
theorem c1_at_most_one_current (hashOf : String → String) (ops : List OpC) (fn : String) :
    countCurrent (execOps hashOf ops).rows fn ≤ 1 := by
  unfold execOps
  refine execOps_unique hashOf ops _ ?_ fn
  intro g
  simp [countCurrent]

/-- Claim C3: a commit whose content hash differs from the current
record's checksum (or that finds no current record) closes the existing
current record by setting its `valid_to` to the commit date, moves the
staged content into durable storage under the original name with the date
inserted before the extension, inserts exactly one new `VersionRecord`
with `valid_from` equal to the commit date, `valid_to = NULL` and the
computed checksum — so every closed row carries `valid_to` equal to the
new row's `valid_from`, and the file stored under the date-suffixed name
has exactly the hashed content — and returns Stored. -/
theorem c3_changed_commit_stores_new_version :
    (∀ (hashOf : String → String) (st : Store) (fp dir today c : String) (r : Row),
      fsGet st.fs fp = some c →
      latestCurrent st.rows (baseName fp) = some r →
      ¬ (r.checksum = hashOf c) →
      ∃ st',
        store_if_changed hashOf st fp dir today =
          (StoreOutcome.stored (versionedPath dir (baseName fp) today), st') ∧
        st'.rows = closeRow st.rows r.rowid today ++
          [{ file_name := baseName fp, version_date := today, checksum := hashOf c,
             valid_from := today, valid_to := none, rowid := st.nextId }] ∧
        st'.rows.length = st.rows.length + 1 ∧
        fsGet st'.fs (versionedPath dir (baseName fp) today) = some c ∧
        (∀ rr ∈ closeRow st.rows r.rowid today, rr.rowid = r.rowid → rr.valid_to = some today)) ∧
    (∀ (hashOf : String → String) (st : Store) (fp dir today c : String),
      fsGet st.fs fp = some c →
      latestCurrent st.rows (baseName fp) = none →
      ∃ st',
        store_if_changed hashOf st fp dir today =
          (StoreOutcome.stored (versionedPath dir (baseName fp) today), st') ∧
        st'.rows = st.rows ++
          [{ file_name := baseName fp, version_date := today, checksum := hashOf c,
             valid_from := today, valid_to := none, rowid := st.nextId }] ∧
        st'.rows.length = st.rows.length + 1 ∧
        fsGet st'.fs (versionedPath dir (baseName fp) today) = some c) := by
  constructor
  · intro hashOf st fp dir today c r hget hlat hsum
    rw [store_if_changed_stored_close_eq hashOf st fp dir today c r hget hlat hsum,
      storeNewVersion_eq]
    refine ⟨_, rfl, rfl, ?_, ?_, ?_⟩
    · simp [closeRow_length]
    · exact fsGet_fsSet_self _ _ _
    · exact closeRow_rowid_closed st.rows r.rowid today
  · intro hashOf st fp dir today c hget hlat
    rw [store_if_changed_stored_first_eq hashOf st fp dir today c hget hlat,
      storeNewVersion_eq]
    refine ⟨_, rfl, rfl, ?_, ?_⟩
    · simp
    · exact fsGet_fsSet_self _ _ _

theorem c3_witness :
    ∃ st',
      store_if_changed idHash stChanged "/data/raw/f.txt" "/data/raw" "2024-03-07" =
        (StoreOutcome.stored (versionedPath "/data/raw" (baseName "/data/raw/f.txt") "2024-03-07"), st') ∧
      st'.rows = closeRow stChanged.rows rowOld.rowid "2024-03-07" ++
        [{ file_name := baseName "/data/raw/f.txt", version_date := "2024-03-07",
           checksum := idHash "new", valid_from := "2024-03-07", valid_to := none,
           rowid := stChanged.nextId }] ∧
      st'.rows.length = stChanged.rows.length + 1 ∧
      fsGet st'.fs (versionedPath "/data/raw" (baseName "/data/raw/f.txt") "2024-03-07") = some "new" ∧
      (∀ rr ∈ closeRow stChanged.rows rowOld.rowid "2024-03-07",
        rr.rowid = rowOld.rowid → rr.valid_to = some "2024-03-07") :=
  c3_changed_commit_stores_new_version.1 idHash stChanged "/data/raw/f.txt" "/data/raw"
    "2024-03-07" "new" rowOld (by decide) (by decide) (by decide)

/-- Claim C4 (the code falls short of it): `store_if_changed` performs the
`shutil.move` of line 124 before the sqlite transaction commits at
line 132.  If the process dies inside that window, the staged file has
already been relocated to its final versioned name while the
`file_versions` table is rolled back unchanged — a relocated file without
its `VersionRecord`, so the state is not "exactly as it was before the
attempt".  (The UPDATE and INSERT share one transaction, so two current
records cannot arise this way; the orphaned file can.)  Evaluated here on
a concrete commit: the crash state holds the moved file and an empty
table, while the completed commit would have inserted one row. -/
theorem c4_crash_after_move_leaves_orphan_file :
    store_if_changed_crash_after_move idHash stFresh "/data/raw/f.txt" "/data/raw" "2024-03-07" =
      some { rows := [], nextId := 0, fs := [("/data/raw/f_2024-03-07.txt", "hello")] } ∧
    ¬ (store_if_changed_crash_after_move idHash stFresh "/data/raw/f.txt" "/data/raw" "2024-03-07" =
        some stFresh) ∧
    (store_if_changed idHash stFresh "/data/raw/f.txt" "/data/raw" "2024-03-07").2.rows.length = 1 := by
  refine ⟨by decide, by decide, by decide⟩

/-!
Section: Idempotent-run lemmas
-/

theorem processKeys_all_unchanged (env : Env) (sel : Dict) (key : String) (day : Date) :
    ∀ (ks : List (String × String)) (st : RunState),
      allUnchanged env sel key st.store.rows ks →
      ∃ stF, processKeys env sel key day st ks = some ([], stF) ∧
        stF.store.rows = st.store.rows ∧ stF.uploads = st.uploads := by
  intro ks
  induction ks with
  | nil => intro st h; exact ⟨st, rfl, rfl, rfl⟩
  | cons kk rest ih =>
    intro st h
    obtain ⟨lk, nk⟩ := kk
    have hrest : allUnchanged env sel key st.store.rows rest := by
      intro lk' nk' hmem
      exact h lk' nk' (List.mem_cons_of_mem _ hmem)
    cases hl : dget sel lk with
    | none =>
      cases hn : dget sel nk with
      | none =>
        simp only [processKeys, hl, hn]
        exact ih st hrest
      | some fn =>
        simp only [processKeys, hl, hn]
        exact ih st hrest
    | some link =>
      cases hn : dget sel nk with
      | none =>
        simp only [processKeys, hl, hn]
        exact ih st hrest
      | some fn =>
        by_cases hemp : link = "" ∨ fn = ""
        · simp only [processKeys, hl, hn, hemp, if_true]
          exact ih st hrest
        · simp only [processKeys, hl, hn, hemp, if_false]
          cases hfe : env.fetch (build_download_url key fn) with
          | mk s b =>
            dsimp only
            by_cases hs : s = 200
            · subst hs
              push_neg at hemp
              obtain ⟨hslash, r, hlat, hsum⟩ :=
                h lk nk (List.mem_cons_self _ _) link fn hl hn hemp.1 hemp.2 b hfe
              have hpath : fsGet (fsSet st.store.fs (DOWNLOAD_DIR ++ "/" ++ fn) b)
                  (DOWNLOAD_DIR ++ "/" ++ fn) = some b := fsGet_fsSet_self _ _ _
              have hbase : baseName (DOWNLOAD_DIR ++ "/" ++ fn) = fn :=
                baseName_concat DOWNLOAD_DIR fn hslash
              have hdl : download_rich 200 b st.store.fs fn DOWNLOAD_DIR =
                  (some (DOWNLOAD_DIR ++ "/" ++ fn),
                   fsSet st.store.fs (DOWNLOAD_DIR ++ "/" ++ fn) b) := by
                unfold download_rich
                rw [if_neg (by simp)]
              have hstore :
                  store_if_changed env.hashOf
                    { rows := st.store.rows, nextId := st.store.nextId,
                      fs := fsSet st.store.fs (DOWNLOAD_DIR ++ "/" ++ fn) b }
                    (DOWNLOAD_DIR ++ "/" ++ fn) (routeFor fn).1 env.today =
                  (StoreOutcome.unchanged,
                   { rows := st.store.rows, nextId := st.store.nextId,
                     fs := fsDel (fsSet st.store.fs (DOWNLOAD_DIR ++ "/" ++ fn) b)
                       (DOWNLOAD_DIR ++ "/" ++ fn) }) := by
                refine store_if_changed_unchanged_eq env.hashOf _ _ _ _ b r hpath ?_ hsum
                rw [hbase]
                exact hlat
              rw [hdl]
              simp only [process_file, hstore]
              have hnext := ih
                { store :=
                    { rows := st.store.rows, nextId := st.store.nextId,
                      fs := fsDel (fsSet st.store.fs (DOWNLOAD_DIR ++ "/" ++ fn) b)
                        (DOWNLOAD_DIR ++ "/" ++ fn) },
                  uploads := st.uploads } hrest
              obtain ⟨stF, hrun, hrows, hups⟩ := hnext
              refine ⟨stF, ?_, hrows, hups⟩
              rw [hrun]
              simp
            · have hdl : download_rich s b st.store.fs fn DOWNLOAD_DIR = (none, st.store.fs) := by
                unfold download_rich
                rw [if_pos hs]
              rw [hdl]
              exact ih st hrest

/-- Claim C2: committing staged content whose hash equals the checksum of
the current `VersionRecord` for the same file name discards the staged
file, mutates no version-table row and returns Unchanged (`None`);
consequently a run in which every fetched artifact's content is identical
to what is already stored yields an empty stored set, inserts no new
`VersionRecord` rows, and the run's outcome is `None`. -/
theorem c2_unchanged_noop_and_idempotent_run :
    (∀ (hashOf : String → String) (st : Store) (fp dir today c : String) (r : Row),
      fsGet st.fs fp = some c →
      latestCurrent st.rows (baseName fp) = some r →
      r.checksum = hashOf c →
      store_if_changed hashOf st fp dir today =
        (StoreOutcome.unchanged, { st with fs := fsDel st.fs fp })) ∧
    (∀ (env : Env) (st0 : RunState) (td : Option String) (items : List Dict) (sel : Dict)
       (disp key : String) (day : Date),
      available_items env.items = some items →
      select_item_for_date items
        (match td with | none => none | some s => parse_input_date s) = some sel →
      dget sel "Date" = some disp →
      dget sel "key" = some key →
      parse_item_date disp = some day →
      allUnchanged env sel key st0.store.rows file_keys →
      ∃ stF,
        processKeys env sel key day st0 file_keys = some ([], stF) ∧
        download_all_files env st0 td = some (none, stF) ∧
        stF.store.rows = st0.store.rows ∧ stF.uploads = st0.uploads) := by
  constructor
  · exact store_if_changed_unchanged_eq
  · intro env st0 td items sel disp key day hav hsel hdisp hkey hday hall
    obtain ⟨stF, hrun, hrows, hups⟩ :=
      processKeys_all_unchanged env sel key day file_keys st0 hall
    refine ⟨stF, hrun, ?_, hrows, hups⟩
    have hne : ¬ (items = []) := by
      intro hnil
      rw [hnil] at hsel
      simp [select_item_for_date] at hsel
    unfold download_all_files
    simp only [hav, hne, if_false, hsel, hdisp, hkey, hday, hrun]
    simp

theorem c2_witness :
    ∃ stF,
      processKeys envDF itemDF "K1" ⟨2024, 3, 7⟩ stDF file_keys = some ([], stF) ∧
      download_all_files envDF stDF none = some (none, stF) ∧
      stF.store.rows = stDF.store.rows ∧ stF.uploads = stDF.uploads := by
  refine c2_unchanged_noop_and_idempotent_run.2 envDF stDF none [itemDF] itemDF "07 Mar 2024"
    "K1" ⟨2024, 3, 7⟩ (by decide) (by decide) (by decide) (by decide) (by decide) ?_
  intro lk nk hmem link fn h1 h2 h3 h4 body h5
  fin_cases hmem
  · rw [show dget itemDF "Data File Link" = some "L" from by decide] at h1
    rw [show dget itemDF "Data File" = some "F.txt" from by decide] at h2
    have hlk : link = "L" := by injection h1 with hx; exact hx.symm
    have hfn : fn = "F.txt" := by injection h2 with hx; exact hx.symm
    subst hfn
    have hb : body = "hello" := by
      have : (200, "hello") = ((200 : Nat), body) := h5
      injection this with _ hx
      exact hx.symm
    subst hb
    exact ⟨by decide,
      ⟨{ file_name := "F.txt", version_date := "2024-03-06", checksum := "hello",
         valid_from := "2024-03-06", valid_to := none, rowid := 0 },
       by decide, by decide⟩⟩
  · rw [show dget itemDF "Tick Data Structure File Link" = none from by decide] at h1
    exact Option.noConfusion h1
  · rw [show dget itemDF "TC Data File Link" = none from by decide] at h1
    exact Option.noConfusion h1
  · rw [show dget itemDF "TC Data Structure File Link" = none from by decide] at h1
    exact Option.noConfusion h1

/-- Claim C10: a target-date string that matches none of the three
accepted notations is normalized to no-target by `_parse_input_date`, so
the run does not fail or return `None` on that ground — it behaves exactly
like a run with no requested date (most recent available item). -/
theorem c10_unparseable_target_falls_back_to_latest (env : Env) (st0 : RunState) (s : String)
    (h : parse_input_date s = none) :
    download_all_files env st0 (some s) = download_all_files env st0 none := by
  unfold download_all_files
  simp only [h]

theorem c10_witness :
    download_all_files envEmpty runState0 (some "garbage") =
      download_all_files envEmpty runState0 none :=
  c10_unparseable_target_falls_back_to_latest envEmpty runState0 "garbage" (by decide)

/-- Claim C5 counterexample: with HTTP status 200 and an empty body, the
rich variant's `download` reports success and leaves the empty file at the
final staged name — a suspiciously short (here: empty) body is not a
Failure, and no temporary name shields the final staged name from the
partial/empty write. -/
theorem c5_short_body_not_failure :
    download_rich 200 "" [] "WEBPXTICK_DT-20240307.zip" "/data/raw" =
      (some "/data/raw/WEBPXTICK_DT-20240307.zip",
       [("/data/raw/WEBPXTICK_DT-20240307.zip", "")]) := by decide

/-- Claim C5 (amended): in the rich variant, a non-success HTTP status is
a Failure with no write at all, but any success-status body — however
short — is streamed directly to the final staged name (no temporary name)
and reported as success; only the legacy flat variant rejects bodies of
fewer than 10 bytes, and it does so before writing anything. -/
theorem c5_fetch_behavior :
    (∀ (status : Nat) (body : String) (fs : FS) (filename target_dir : String),
      ¬ (status = 200) →
      download_rich status body fs filename target_dir = (none, fs)) ∧
    (∀ (body : String) (fs : FS) (filename target_dir : String),
      download_rich 200 body fs filename target_dir =
        (some (target_dir ++ "/" ++ filename),
         fsSet fs (target_dir ++ "/" ++ filename) body)) ∧
    (∀ (unzip : String → Option (List (String × String))) (body : String)
       (fs : FS) (filename : String),
      fsGet fs ("downloads" ++ "/" ++ filename) = none →
      body.data.length < 10 →
      download_flat unzip 200 body fs filename = fs) := by
  refine ⟨?_, ?_, ?_⟩
  · intro status body fs fn dir h
    unfold download_rich
    rw [if_pos h]
  · intro body fs fn dir
    unfold download_rich
    rw [if_neg (by simp)]
  · intro unzip body fs fn hget hlen
    unfold download_flat
    simp only [hget, Option.isSome_none, if_neg (by simp : ¬ (false = true))]
    rw [if_neg (by simp), if_pos hlen]

theorem c5_witness :
    download_rich 404 "somedata" [] "f.csv" "/data/raw" = (none, []) ∧
    download_rich 200 "0123456789ab" [] "f.csv" "/data/raw" =
      (some ("/data/raw" ++ "/" ++ "f.csv"),
       fsSet [] ("/data/raw" ++ "/" ++ "f.csv") "0123456789ab") ∧
    download_flat (fun _ => none) 200 "tiny" [] "f.csv" = [] :=
  ⟨c5_fetch_behavior.1 404 "somedata" [] "f.csv" "/data/raw" (by decide),
   c5_fetch_behavior.2.1 "0123456789ab" [] "f.csv" "/data/raw",
   c5_fetch_behavior.2.2 (fun _ => none) "tiny" [] "f.csv" (by decide) (by decide)⟩

/-!
Section: Warehouse distribution lemmas
-/

theorem str_eq_of_data_eq (a b : String) (h : a.data = b.data) : a = b := String.ext h

theorem str_append_left_cancel (a b c : String) (h : a ++ b = a ++ c) : b = c := by
  have hd : (a ++ b).data = (a ++ c).data := by rw [h]
  rw [strData_append, strData_append] at hd
  exact str_eq_of_data_eq b c (List.append_cancel_left hd)

theorem strStartsWith_append (a b : String) : strStartsWith (a ++ b) a = true := by
  unfold strStartsWith
  rw [strData_append]
  exact List.isPrefixOf_iff_prefix.2 (List.prefix_append a.data b.data)

theorem fsGet_rmAllUnder_not_under (fs : FS) (dir p : String)
    (h : strStartsWith p (dir ++ "/") = false) :
    fsGet (rmAllUnder fs dir) p = fsGet fs p := by
  unfold fsGet rmAllUnder
  rw [find?_filter_of_imp]
  intro a ha
  simp only [decide_eq_true_eq] at ha
  simp [ha, h]

theorem fsGet_rmAllUnder_under (fs : FS) (dir p : String)
    (h : strStartsWith p (dir ++ "/") = true) :
    fsGet (rmAllUnder fs dir) p = none := by
  unfold fsGet rmAllUnder
  rw [List.find?_eq_none.2]
  · rfl
  · intro a ha
    have hmem := List.of_mem_filter ha
    simp only [decide_not, Bool.not_eq_true', decide_eq_false_iff_not] at hmem
    intro hcon
    simp only [decide_eq_true_eq] at hcon
    rw [hcon] at hmem
    exact hmem h

theorem foldl_mwuStep_uploads (edir table : String) (d : Date) :
    ∀ (members : List (String × String)) (st : RunState),
      (members.foldl (mwuStep edir table d) st).uploads =
        st.uploads ++ members.map
          (fun m => upload_warehouse_key (partition_dir table d ++ "/" ++ m.1) table d) := by
  intro members
  induction members with
  | nil => intro st; simp
  | cons m rest ih =>
    intro st
    rw [List.foldl_cons, ih]
    simp [mwuStep]

theorem mwu_uploads (st : RunState) (edir : String) (members : List (String × String))
    (table : String) (d : Date) :
    (move_to_warehouse_and_upload st edir members table d).uploads =
      st.uploads ++ members.map
        (fun m => upload_warehouse_key (partition_dir table d ++ "/" ++ m.1) table d) := by
  unfold move_to_warehouse_and_upload
  exact foldl_mwuStep_uploads edir table d members st

theorem foldl_mwuStep_fsGet_other (edir table : String) (d : Date) (p : String) :
    ∀ (members : List (String × String)) (st : RunState),
      (∀ m ∈ members, ¬ (p = edir ++ "/" ++ m.1) ∧ ¬ (p = partition_dir table d ++ "/" ++ m.1)) →
      fsGet (members.foldl (mwuStep edir table d) st).store.fs p = fsGet st.store.fs p := by
  intro members
  induction members with
  | nil => intro st _; rfl
  | cons m rest ih =>
    intro st h
    rw [List.foldl_cons]
    rw [ih _ (fun x hx => h x (List.mem_cons_of_mem m hx))]
    have hm := h m (List.mem_cons_self m rest)
    show fsGet (fsSet (fsDel st.store.fs (edir ++ "/" ++ m.1))
      (partition_dir table d ++ "/" ++ m.1) m.2) p = fsGet st.store.fs p
    rw [fsGet_fsSet_ne _ _ _ _ hm.2, fsGet_fsDel_ne _ _ _ hm.1]

theorem foldl_extractStep_fsGet_other (edir : String) (p : String) :
    ∀ (members : List (String × String)) (fs : FS),
      (∀ m ∈ members, ¬ (p = edir ++ "/" ++ m.1)) →
      fsGet (members.foldl (extractStep edir) fs) p = fsGet fs p := by
  intro members
  induction members with
  | nil => intro fs _; rfl
  | cons m rest ih =>
    intro fs h
    rw [List.foldl_cons]
    rw [ih _ (fun x hx => h x (List.mem_cons_of_mem m hx))]
    show fsGet (fsSet fs (edir ++ "/" ++ m.1) m.2) p = fsGet fs p
    rw [fsGet_fsSet_ne _ _ _ _ (h m (List.mem_cons_self m rest))]

theorem mwu_fsGet_other (st : RunState) (edir : String) (members : List (String × String))
    (table : String) (d : Date) (p : String)
    (hp : strStartsWith p (edir ++ "/") = false)
    (h : ∀ m ∈ members, ¬ (p = edir ++ "/" ++ m.1) ∧ ¬ (p = partition_dir table d ++ "/" ++ m.1)) :
    fsGet (move_to_warehouse_and_upload st edir members table d).store.fs p =
      fsGet st.store.fs p := by
  unfold move_to_warehouse_and_upload
  show fsGet (rmAllUnder (members.foldl (mwuStep edir table d) st).store.fs edir) p = _
  rw [fsGet_rmAllUnder_not_under _ _ _ hp]
  exact foldl_mwuStep_fsGet_other edir table d p members st h

theorem foldl_mwuStep_fsGet_dst (edir table : String) (d : Date) :
    ∀ (members : List (String × String)) (st : RunState) (m : String × String),
      m ∈ members →
      (members.map Prod.fst).Nodup →
      (∀ x ∈ members, ¬ (partition_dir table d ++ "/" ++ m.1 = edir ++ "/" ++ x.1)) →
      fsGet (members.foldl (mwuStep edir table d) st).store.fs
        (partition_dir table d ++ "/" ++ m.1) = some m.2 := by
  intro members
  induction members with
  | nil => intro st m hm; cases hm
  | cons x rest ih =>
    intro st m hm hnodup hsrc
    rw [List.foldl_cons]
    cases hm with
    | head =>
      rw [foldl_mwuStep_fsGet_other]
      · show fsGet (fsSet (fsDel st.store.fs (edir ++ "/" ++ x.1))
          (partition_dir table d ++ "/" ++ x.1) x.2) (partition_dir table d ++ "/" ++ x.1) = some x.2
        exact fsGet_fsSet_self _ _ _
      · intro y hy
        constructor
        · exact hsrc y (List.mem_cons_of_mem x hy)
        · intro hcon
          have hnames : x.1 = y.1 :=
            str_append_left_cancel (partition_dir table d ++ "/") x.1 y.1 hcon
          rw [List.map_cons, List.nodup_cons] at hnodup
          exact hnodup.1 (hnames ▸ List.mem_map_of_mem Prod.fst hy)
    | tail _ hmt =>
      refine ih _ m hmt ?_ ?_
      · rw [List.map_cons, List.nodup_cons] at hnodup
        exact hnodup.2
      · intro y hy
        exact hsrc y (List.mem_cons_of_mem x hy)

theorem mwu_fsGet_dst (st : RunState) (edir : String) (members : List (String × String))
    (table : String) (d : Date) (m : String × String)
    (hm : m ∈ members)
    (hnodup : (members.map Prod.fst).Nodup)
    (hsrc : ∀ x ∈ members, ¬ (partition_dir table d ++ "/" ++ m.1 = edir ++ "/" ++ x.1))
    (hpfx : strStartsWith (partition_dir table d ++ "/" ++ m.1) (edir ++ "/") = false) :
    fsGet (move_to_warehouse_and_upload st edir members table d).store.fs
      (partition_dir table d ++ "/" ++ m.1) = some m.2 := by
  unfold move_to_warehouse_and_upload
  show fsGet (rmAllUnder (members.foldl (mwuStep edir table d) st).store.fs edir) _ = _
  rw [fsGet_rmAllUnder_not_under _ _ _ hpfx]
  exact foldl_mwuStep_fsGet_dst edir table d members st m hm hnodup hsrc

theorem mwu_fsGet_src_gone (st : RunState) (edir : String) (members : List (String × String))
    (table : String) (d : Date) (x : String) :
    fsGet (move_to_warehouse_and_upload st edir members table d).store.fs
      (edir ++ "/" ++ x) = none := by
  unfold move_to_warehouse_and_upload
  show fsGet (rmAllUnder (members.foldl (mwuStep edir table d) st).store.fs edir) _ = _
  refine fsGet_rmAllUnder_under _ _ _ ?_
  exact strStartsWith_append (edir ++ "/") x

/-!
Section: process_file branch characterisations
-/

theorem process_file_unchanged_eq (env : Env) (st : RunState) (fp dir pfx : String)
    (day : Date) (t : Option String) (s1 : Store)
    (h : store_if_changed env.hashOf st.store fp dir env.today = (StoreOutcome.unchanged, s1)) :
    process_file env st fp dir pfx day t = some (none, { st with store := s1 }) := by
  unfold process_file
  rw [h]

theorem process_file_stored_none_eq (env : Env) (st : RunState) (fp dir pfx : String)
    (day : Date) (p : String) (s1 : Store)
    (h : store_if_changed env.hashOf st.store fp dir env.today = (StoreOutcome.stored p, s1)) :
    process_file env st fp dir pfx day none =
      some (some p, { store := s1, uploads := st.uploads ++ [push_key pfx p] }) := by
  unfold process_file
  rw [h]

theorem process_file_stored_notzip_eq (env : Env) (st : RunState) (fp dir pfx : String)
    (day : Date) (table p : String) (s1 : Store)
    (h : store_if_changed env.hashOf st.store fp dir env.today = (StoreOutcome.stored p, s1))
    (hz : strEndsWith (strToLower p) ".zip" = false) :
    process_file env st fp dir pfx day (some table) =
      some (some p, { store := s1, uploads := st.uploads ++ [push_key pfx p] }) := by
  unfold process_file
  rw [h]
  simp only [hz, Bool.false_eq_true, if_false]

theorem process_file_stored_badzip_eq (env : Env) (st : RunState) (fp dir pfx : String)
    (day : Date) (table p c : String) (s1 : Store)
    (h : store_if_changed env.hashOf st.store fp dir env.today = (StoreOutcome.stored p, s1))
    (hz : strEndsWith (strToLower p) ".zip" = true)
    (hc : fsGet s1.fs p = some c)
    (hu : env.unzip c = none) :
    process_file env st fp dir pfx day (some table) =
      some (some p, { store := s1, uploads := st.uploads ++ [push_key pfx p] }) := by
  unfold process_file
  rw [h]
  simp only [hz, if_true, hc, hu]

theorem process_file_stored_zip_eq (env : Env) (st : RunState) (fp dir pfx : String)
    (day : Date) (table p c : String) (s1 : Store) (members : List (String × String))
    (h : store_if_changed env.hashOf st.store fp dir env.today = (StoreOutcome.stored p, s1))
    (hz : strEndsWith (strToLower p) ".zip" = true)
    (hc : fsGet s1.fs p = some c)
    (hu : env.unzip c = some members) :
    process_file env st fp dir pfx day (some table) =
      some (some p, move_to_warehouse_and_upload
        { store := { rows := s1.rows, nextId := s1.nextId,
                     fs := members.foldl (extractStep ("/tmp/" ++ (splitExt (baseName p)).1)) s1.fs },
          uploads := st.uploads ++ [push_key pfx p] }
        ("/tmp/" ++ (splitExt (baseName p)).1) members table day) := by
  unfold process_file
  rw [h]
  simp only [hz, if_true, hc, hu]

/-- Claim C7: after a successful extraction and warehouse distribution the
zip container itself is not deleted — the stored container file is still
present with its content in durable raw storage (the code deliberately
keeps it, line 212); and on a malformed container the `BadZipFile` is
caught and the container file is left untouched, in the rich pipeline and
(for the extraction step) in the legacy flat variant alike. -/
theorem c7_container_retained :
    (∀ (env : Env) (st : RunState) (fp dir pfx : String) (day : Date) (table p c : String)
       (s1 : Store) (members : List (String × String)),
      store_if_changed env.hashOf st.store fp dir env.today = (StoreOutcome.stored p, s1) →
      strEndsWith (strToLower p) ".zip" = true →
      fsGet s1.fs p = some c →
      env.unzip c = some members →
      strStartsWith p ("/tmp/" ++ (splitExt (baseName p)).1 ++ "/") = false →
      (∀ m ∈ members,
        ¬ (p = "/tmp/" ++ (splitExt (baseName p)).1 ++ "/" ++ m.1) ∧
        ¬ (p = partition_dir table day ++ "/" ++ m.1)) →
      ∃ stF, process_file env st fp dir pfx day (some table) = some (some p, stF) ∧
        fsGet stF.store.fs p = some c) ∧
    (∀ (env : Env) (st : RunState) (fp dir pfx : String) (day : Date) (table p c : String)
       (s1 : Store),
      store_if_changed env.hashOf st.store fp dir env.today = (StoreOutcome.stored p, s1) →
      strEndsWith (strToLower p) ".zip" = true →
      fsGet s1.fs p = some c →
      env.unzip c = none →
      process_file env st fp dir pfx day (some table) =
        some (some p, { store := s1, uploads := st.uploads ++ [push_key pfx p] }) ∧
      fsGet s1.fs p = some c) ∧
    (∀ (unzip : String → Option (List (String × String))) (fs : FS) (path c : String),
      fsGet fs path = some c → unzip c = none →
      extract_if_zip unzip fs path = fs) := by
  refine ⟨?_, ?_, ?_⟩
  · intro env st fp dir pfx day table p c s1 members hst hz hc hu hpfx hmem
    rw [process_file_stored_zip_eq env st fp dir pfx day table p c s1 members hst hz hc hu]
    refine ⟨_, rfl, ?_⟩
    rw [mwu_fsGet_other _ _ _ _ _ _ hpfx (fun m hm => hmem m hm)]
    show fsGet (members.foldl (extractStep ("/tmp/" ++ (splitExt (baseName p)).1)) s1.fs) p = some c
    rw [foldl_extractStep_fsGet_other _ _ members s1.fs (fun m hm => (hmem m hm).1)]
    exact hc
  · intro env st fp dir pfx day table p c s1 hst hz hc hu
    exact ⟨process_file_stored_badzip_eq env st fp dir pfx day table p c s1 hst hz hc hu, hc⟩
  · intro unzip fs path c hget hu
    by_cases hz : strEndsWith (strToLower path) ".zip" = true
    · unfold extract_if_zip
      simp only [hz, not_true, if_false, hget, hu]
    · unfold extract_if_zip
      simp only [Bool.not_eq_true] at hz
      simp [hz]

theorem c7_witness :
    (∃ stF, process_file envTC stZip "/data/raw/x.zip" "/data/raw" "raw" ⟨2024, 3, 7⟩
        (some "WEBPXTICK_DT") = some (some "/data/raw/x_2024-03-07.zip", stF) ∧
      fsGet stF.store.fs "/data/raw/x_2024-03-07.zip" = some "zipbytes") ∧
    extract_if_zip (fun _ => none) [("downloads/a.zip", "bad")] "downloads/a.zip" =
      [("downloads/a.zip", "bad")] :=
  ⟨c7_container_retained.1 envTC stZip "/data/raw/x.zip" "/data/raw" "raw" ⟨2024, 3, 7⟩
      "WEBPXTICK_DT" "/data/raw/x_2024-03-07.zip" "zipbytes"
      { rows := [{ file_name := "x.zip", version_date := "2024-03-07", checksum := "zipbytes",
                   valid_from := "2024-03-07", valid_to := none, rowid := 0 }],
        nextId := 1, fs := [("/data/raw/x_2024-03-07.zip", "zipbytes")] }
      [("member.csv", "x")]
      (by decide) (by decide) (by decide) (by decide) (by decide) (by decide),
   c7_container_retained.2.2 (fun _ => none) [("downloads/a.zip", "bad")] "downloads/a.zip"
     "bad" (by decide) rfl⟩

/-!
Section: Decimal rendering lemmas (partition-path injectivity)
-/

theorem digitChar_toNat : ∀ a, a < 10 → (digitChar a).toNat = 48 + a := by decide

theorem digitChar_inj : ∀ a, a < 10 → ∀ b, b < 10 → digitChar a = digitChar b → a = b := by
  decide

theorem digitChar_ne_slash : ∀ a, a < 10 → ¬ (digitChar a = '/') := by decide

theorem natDigitsAux_mem (fuel : Nat) :
    ∀ n, n < fuel → ∀ c ∈ natDigitsAux fuel n, ∃ k, k < 10 ∧ c = digitChar k := by
  induction fuel with
  | zero => intro n hn; omega
  | succ f ih =>
    intro n hn c hc
    unfold natDigitsAux at hc
    by_cases h10 : n < 10
    · simp only [h10, if_true, List.mem_singleton] at hc
      exact ⟨n, h10, hc⟩
    · simp only [h10, if_false] at hc
      rcases List.mem_append.1 hc with h1 | h1
      · refine ih (n / 10) ?_ c h1
        have hlt : n / 10 < n := Nat.div_lt_self (by omega) (by omega)
        omega
      · rw [List.mem_singleton] at h1
        exact ⟨n % 10, Nat.mod_lt n (by omega), h1⟩

theorem natDigits_ne_slash (n : Nat) : ∀ c ∈ natDigits n, ¬ (c = '/') := by
  intro c hc
  obtain ⟨k, hk, hck⟩ := natDigitsAux_mem (n + 1) n (Nat.lt_succ_self n) c hc
  rw [hck]
  exact digitChar_ne_slash k hk

theorem digitsToNat_append_digit (l : List Char) (c : Char) :
    digitsToNat (l ++ [c]) = digitsToNat l * 10 + (c.toNat - 48) := by
  unfold digitsToNat
  rw [List.foldl_append]
  rfl

theorem digitsToNat_natDigitsAux (fuel : Nat) :
    ∀ n, n < fuel → digitsToNat (natDigitsAux fuel n) = n := by
  induction fuel with
  | zero => intro n hn; omega
  | succ f ih =>
    intro n hn
    unfold natDigitsAux
    by_cases h10 : n < 10
    · simp only [h10, if_true]
      unfold digitsToNat
      rw [List.foldl_cons, List.foldl_nil]
      rw [digitChar_toNat n h10]
      omega
    · simp only [h10, if_false]
      rw [digitsToNat_append_digit]
      have hlt : n / 10 < n := Nat.div_lt_self (by omega) (by omega)
      rw [ih (n / 10) (by omega)]
      rw [digitChar_toNat (n % 10) (Nat.mod_lt n (by omega))]
      omega

theorem natDigits_inj (a b : Nat) (h : natDigits a = natDigits b) : a = b := by
  have ha := digitsToNat_natDigitsAux (a + 1) a (Nat.lt_succ_self a)
  have hb := digitsToNat_natDigitsAux (b + 1) b (Nat.lt_succ_self b)
  unfold natDigits at h
  rw [← ha, ← hb, h]

theorem natStr_data (n : Nat) : (natStr n).data = natDigits n := rfl

theorem pad2_data (n : Nat) : (pad2 n).data = [digitChar (n / 10), digitChar (n % 10)] := rfl

theorem pad2_data_inj (a b : Nat) (ha : a ≤ 99) (hb : b ≤ 99)
    (h : (pad2 a).data = (pad2 b).data) : a = b := by
  rw [pad2_data, pad2_data] at h
  simp only [List.cons.injEq, and_true] at h
  have h1 := digitChar_inj (a / 10) (by omega) (b / 10) (by omega) h.1
  have h2 := digitChar_inj (a % 10) (by omega) (b % 10) (by omega) h.2
  omega

theorem yearSeg_chars_ok (y : Nat) :
    ∀ x ∈ (natDigits y).reverse ++ ['=', 'r', 'a', 'e', 'y'],
      (fun c => !(c = '/' : Bool)) x = true := by
  intro x hx
  rcases List.mem_append.1 hx with h1 | h1
  · have hns := natDigits_ne_slash y x (List.mem_reverse.1 h1)
    simp [hns]
  · fin_cases h1 <;> decide

theorem partition_dir_inj (t1 t2 : String) (d1 d2 : Date)
    (hm1 : d1.month ≤ 99) (hd1 : d1.day ≤ 99) (hm2 : d2.month ≤ 99) (hd2 : d2.day ≤ 99)
    (h : partition_dir t1 d1 = partition_dir t2 d2) : t1 = t2 ∧ d1 = d2 := by
  have hd := congrArg String.data h
  simp only [partition_dir, strData_append, natStr_data, ← List.append_assoc] at hd
  obtain ⟨hd', hday⟩ := List.append_inj' hd (by rw [pad2_data, pad2_data]; rfl)
  have hdayeq : d1.day = d2.day := pad2_data_inj _ _ hd1 hd2 hday
  have hd2' := List.append_cancel_right hd'
  obtain ⟨hd3, hmon⟩ := List.append_inj' hd2' (by rw [pad2_data, pad2_data]; rfl)
  have hmoneq : d1.month = d2.month := pad2_data_inj _ _ hm1 hm2 hmon
  have hd4 := List.append_cancel_right hd3
  have hd5 : WAREHOUSE_DIR.data ++
      ('/' :: (t1.data ++ (['/', 'y', 'e', 'a', 'r', '='] ++ natDigits d1.year))) =
      WAREHOUSE_DIR.data ++
      ('/' :: (t2.data ++ (['/', 'y', 'e', 'a', 'r', '='] ++ natDigits d2.year))) := by
    simpa [List.append_assoc] using hd4
  have hE0 := List.append_cancel_left hd5
  have hE : t1.data ++ (['/', 'y', 'e', 'a', 'r', '='] ++ natDigits d1.year) =
      t2.data ++ (['/', 'y', 'e', 'a', 'r', '='] ++ natDigits d2.year) := by
    injection hE0
  have hR' : ((natDigits d1.year).reverse ++ ['=', 'r', 'a', 'e', 'y']) ++
      ('/' :: t1.data.reverse) =
      ((natDigits d2.year).reverse ++ ['=', 'r', 'a', 'e', 'y']) ++
      ('/' :: t2.data.reverse) := by
    have hrev := congrArg List.reverse hE
    simp only [List.reverse_append] at hrev
    simpa [List.append_assoc] using hrev
  have hTW := congrArg (List.takeWhile (fun c => !(c = '/' : Bool))) hR'
  rw [takeWhile_append_stop _ _ _ '/' (yearSeg_chars_ok d1.year) (by decide),
      takeWhile_append_stop _ _ _ '/' (yearSeg_chars_ok d2.year) (by decide)] at hTW
  have hYrev := List.append_cancel_right hTW
  have hyeareq : d1.year = d2.year := natDigits_inj _ _ (List.reverse_inj.1 hYrev)
  have hDW := congrArg (List.dropWhile (fun c => !(c = '/' : Bool))) hR'
  rw [dropWhile_append_stop _ _ _ '/' (yearSeg_chars_ok d1.year) (by decide),
      dropWhile_append_stop _ _ _ '/' (yearSeg_chars_ok d2.year) (by decide)] at hDW
  have htrev : t1.data.reverse = t2.data.reverse := by injection hDW
  have hteq : t1 = t2 := str_eq_of_data_eq t1 t2 (List.reverse_inj.1 htrev)
  refine ⟨hteq, ?_⟩
  cases d1 with
  | mk y1 m1 dd1 =>
    cases d2 with
    | mk y2 m2 dd2 =>
      dsimp only at hyeareq hmoneq hdayeq
      rw [hyeareq, hmoneq, hdayeq]

theorem warehouse_key_mirrors_partition (table : String) (d : Date) (fn : String)
    (h : ¬ ('/' ∈ fn.data)) :
    ∃ sfx, partition_dir table d = WAREHOUSE_DIR ++ sfx ∧
      upload_warehouse_key (partition_dir table d ++ "/" ++ fn) table d =
        "derivative_data" ++ sfx ++ "/" ++ fn := by
  refine ⟨"/" ++ table ++ "/year=" ++ natStr d.year ++ "/month=" ++ pad2 d.month ++
    "/day=" ++ pad2 d.day, ?_, ?_⟩
  · apply String.ext
    simp [partition_dir, strData_append, List.append_assoc]
  · unfold upload_warehouse_key
    rw [baseName_concat _ _ h]
    apply String.ext
    simp [strData_append, List.append_assoc]

/-- Claim C6: the partition path is
`<warehouse root>/<table>/year=<Y>/month=<MM>/day=<DD>/` with zero-padded
month and day (the concrete example ends with
`WEBPXTICK_DT/year=2024/month=03/day=07/`); it is a pure function of
(table, date) and no two (table, date) pairs share a path; and
`move_to_warehouse_and_upload` moves every member of the staging directory
into that path, publishes exactly one object per moved member under the
key `derivative_data/<table>/year=<Y>/month=<MM>/day=<DD>/<basename>`
mirroring the local partition path, and the staging entries are gone
afterwards (the `rmtree` is `ignore_errors=True`, so removal is best
effort and never aborts the distribution). -/
theorem c6_partition_path_and_distribute :
    (∀ (table : String) (d : Date),
      partition_dir table d ++ "/" =
        WAREHOUSE_DIR ++ "/" ++ table ++ "/year=" ++ natStr d.year ++
          "/month=" ++ pad2 d.month ++ "/day=" ++ pad2 d.day ++ "/") ∧
    strEndsWith (partition_dir "WEBPXTICK_DT" ⟨2024, 3, 7⟩ ++ "/")
      "WEBPXTICK_DT/year=2024/month=03/day=07/" = true ∧
    (∀ (t1 t2 : String) (d1 d2 : Date),
      d1.month ≤ 99 → d1.day ≤ 99 → d2.month ≤ 99 → d2.day ≤ 99 →
      partition_dir t1 d1 = partition_dir t2 d2 → t1 = t2 ∧ d1 = d2) ∧
    (∀ (st : RunState) (edir table : String) (members : List (String × String)) (d : Date),
      (move_to_warehouse_and_upload st edir members table d).uploads =
        st.uploads ++ members.map
          (fun m => upload_warehouse_key (partition_dir table d ++ "/" ++ m.1) table d)) ∧
    (∀ (table : String) (d : Date) (fn : String), ¬ ('/' ∈ fn.data) →
      ∃ sfx, partition_dir table d = WAREHOUSE_DIR ++ sfx ∧
        upload_warehouse_key (partition_dir table d ++ "/" ++ fn) table d =
          "derivative_data" ++ sfx ++ "/" ++ fn) ∧
    (∀ (st : RunState) (edir table : String) (members : List (String × String)) (d : Date)
       (m : String × String),
      m ∈ members → (members.map Prod.fst).Nodup →
      (∀ x ∈ members, ¬ (partition_dir table d ++ "/" ++ m.1 = edir ++ "/" ++ x.1)) →
      strStartsWith (partition_dir table d ++ "/" ++ m.1) (edir ++ "/") = false →
      fsGet (move_to_warehouse_and_upload st edir members table d).store.fs
        (partition_dir table d ++ "/" ++ m.1) = some m.2) ∧
    (∀ (st : RunState) (edir table : String) (members : List (String × String)) (d : Date)
       (x : String),
      fsGet (move_to_warehouse_and_upload st edir members table d).store.fs
        (edir ++ "/" ++ x) = none) := by
  refine ⟨?_, by decide, ?_, ?_, ?_, ?_, ?_⟩
  · intro table d
    rfl
  · intro t1 t2 d1 d2 hm1 hd1 hm2 hd2 h
    exact partition_dir_inj t1 t2 d1 d2 hm1 hd1 hm2 hd2 h
  · intro st edir table members d
    exact mwu_uploads st edir members table d
  · intro table d fn h
    exact warehouse_key_mirrors_partition table d fn h
  · intro st edir table members d m hm hnodup hsrc hpfx
    exact mwu_fsGet_dst st edir members table d m hm hnodup hsrc hpfx
  · intro st edir table members d x
    exact mwu_fsGet_src_gone st edir members table d x

theorem c6_witness :
    ("WEBPXTICK_DT" = "WEBPXTICK_DT" ∧ (⟨2024, 3, 7⟩ : Date) = ⟨2024, 3, 7⟩) ∧
    (∃ sfx, partition_dir "WEBPXTICK_DT" ⟨2024, 3, 7⟩ = WAREHOUSE_DIR ++ sfx ∧
      upload_warehouse_key (partition_dir "WEBPXTICK_DT" ⟨2024, 3, 7⟩ ++ "/" ++ "m.csv")
        "WEBPXTICK_DT" ⟨2024, 3, 7⟩ = "derivative_data" ++ sfx ++ "/" ++ "m.csv") ∧
    fsGet (move_to_warehouse_and_upload runState0 "/tmp/e" [("m.csv", "x")]
        "WEBPXTICK_DT" ⟨2024, 3, 7⟩).store.fs
      (partition_dir "WEBPXTICK_DT" ⟨2024, 3, 7⟩ ++ "/" ++ "m.csv") = some "x" :=
  ⟨c6_partition_path_and_distribute.2.2.1 "WEBPXTICK_DT" "WEBPXTICK_DT"
      ⟨2024, 3, 7⟩ ⟨2024, 3, 7⟩ (by decide) (by decide) (by decide) (by decide) rfl,
   c6_partition_path_and_distribute.2.2.2.2.1 "WEBPXTICK_DT" ⟨2024, 3, 7⟩ "m.csv" (by decide),
   c6_partition_path_and_distribute.2.2.2.2.2.1 runState0 "/tmp/e" "WEBPXTICK_DT"
     [("m.csv", "x")] ⟨2024, 3, 7⟩ ("m.csv", "x") (by decide) (by decide)
     (by intro x hx; fin_cases hx; decide) (by decide)⟩

/-!
Section: Catalog selection lemmas
-/

theorem mem_insertDesc (key : Dict → Nat) (a : Dict) :
    ∀ (l : List Dict) (x : Dict), x ∈ insertDesc key a l ↔ x = a ∨ x ∈ l := by
  intro l
  induction l with
  | nil => intro x; simp [insertDesc]
  | cons y ys ih =>
    intro x
    unfold insertDesc
    by_cases hc : key y ≤ key a
    · simp [hc]
    · simp only [hc, if_false, List.mem_cons, ih]
      tauto

theorem pairwise_insertDesc (key : Dict → Nat) (a : Dict) :
    ∀ (l : List Dict), List.Pairwise (fun u v => key v ≤ key u) l →
      List.Pairwise (fun u v => key v ≤ key u) (insertDesc key a l) := by
  intro l
  induction l with
  | nil => intro _; simp [insertDesc]
  | cons y ys ih =>
    intro hp
    rw [List.pairwise_cons] at hp
    unfold insertDesc
    by_cases hc : key y ≤ key a
    · rw [if_pos hc, List.pairwise_cons]
      constructor
      · intro z hz
        rcases List.mem_cons.1 hz with rfl | hz'
        · exact hc
        · exact le_trans (hp.1 z hz') hc
      · rw [List.pairwise_cons]
        exact hp
    · rw [if_neg hc, List.pairwise_cons]
      constructor
      · intro z hz
        rcases (mem_insertDesc key a ys z).1 hz with rfl | hz'
        · omega
        · exact hp.1 z hz'
      · exact ih hp.2

theorem sortDesc_pairwise (key : Dict → Nat) :
    ∀ (l : List Dict), List.Pairwise (fun u v => key v ≤ key u) (sortDesc key l) := by
  intro l
  induction l with
  | nil => simp [sortDesc]
  | cons x xs ih => exact pairwise_insertDesc key x (sortDesc key xs) ih

theorem sortDesc_mem (key : Dict → Nat) :
    ∀ (l : List Dict) (x : Dict), x ∈ sortDesc key l ↔ x ∈ l := by
  intro l
  induction l with
  | nil => intro x; simp [sortDesc]
  | cons y ys ih =>
    intro x
    unfold sortDesc
    rw [mem_insertDesc, List.mem_cons, ih]

theorem available_items_spec (raw items : List Dict)
    (h : available_items raw = some items) :
    List.Pairwise (fun u v => itemKeyN v ≤ itemKeyN u) items ∧
    ∀ i ∈ items, i ∈ raw ∧ (dget i "Date").isSome ∧ (dget i "key").isSome ∧
      (itemDate i).isSome := by
  simp only [available_items] at h
  split at h
  case isTrue hall =>
    have hitems : items = sortDesc itemKeyN
        (raw.filter (fun i => (dget i "Date").isSome ∧ (dget i "key").isSome)) := by
      injection h with h'
      exact h'.symm
    subst hitems
    refine ⟨sortDesc_pairwise itemKeyN _, ?_⟩
    intro i hi
    rw [sortDesc_mem] at hi
    have hmem := List.mem_filter.1 hi
    have hconds := hmem.2
    simp only [Bool.and_eq_true, decide_eq_true_eq] at hconds
    refine ⟨hmem.1, hconds.1, hconds.2, ?_⟩
    have := List.all_eq_true.1 hall i hi
    simpa using this
  case isFalse => cases h

theorem select_none_head (items : List Dict) (first : Dict) (rest : List Dict)
    (h : items = first :: rest) : select_item_for_date items none = some first := by
  subst h
  rfl

theorem select_some_target (items : List Dict) (t : Date) (it : Dict)
    (h : select_item_for_date items (some t) = some it) :
    it ∈ items ∧ itemDate it = some t := by
  unfold select_item_for_date at h
  cases items with
  | nil => cases h
  | cons f rs =>
    have h1 := List.find?_some h
    have h2 := List.mem_of_find?_eq_some h
    rw [List.mem_reverse] at h2
    simp only [decide_eq_true_eq] at h1
    exact ⟨h2, h1⟩

theorem select_no_match (items : List Dict) (t : Date)
    (h : ∀ i ∈ items, ¬ (itemDate i = some t)) :
    select_item_for_date items (some t) = none := by
  unfold select_item_for_date
  cases items with
  | nil => rfl
  | cons f rs =>
    dsimp only
    rw [List.find?_eq_none.2]
    intro x hx
    rw [List.mem_reverse] at hx
    simp only [decide_eq_true_eq]
    exact h x hx

/-- Claim C8: with no target the selector returns the most recent
available item — the head of the feed items after discarding entries
missing a date or key and sorting descending by parsed date (its date key
dominates every listed item); the three input notations
(day/month/year, ISO, "DD Mon YYYY") normalize to one calendar date; a
target requires an exact match against the feed's own date field, a miss
returning none while the available dates are summarised for diagnostics;
on the spec's example feed ["07 Mar 2024", "06 Mar 2024"], `select(none)`
is the "07 Mar 2024" item and `select("2024-03-05")` is none with both
dates listed. -/
theorem c8_select_semantics :
    (∀ (raw items : List Dict), available_items raw = some items →
      (∀ i ∈ items, i ∈ raw ∧ (dget i "Date").isSome ∧ (dget i "key").isSome) ∧
      (∀ (first : Dict) (rest : List Dict), items = first :: rest →
        select_item_for_date items none = some first ∧
        ∀ j ∈ items, itemKeyN j ≤ itemKeyN first)) ∧
    (parse_input_date "07/03/2024" = some ⟨2024, 3, 7⟩ ∧
     parse_input_date "2024-03-07" = some ⟨2024, 3, 7⟩ ∧
     parse_input_date "07 Mar 2024" = some ⟨2024, 3, 7⟩) ∧
    (∀ (items : List Dict) (t : Date) (it : Dict),
      select_item_for_date items (some t) = some it →
      it ∈ items ∧ itemDate it = some t) ∧
    (∀ (items : List Dict) (t : Date),
      (∀ i ∈ items, ¬ (itemDate i = some t)) →
      select_item_for_date items (some t) = none) ∧
    (available_items feedTwoDays = some [item07, item06] ∧
     select_item_for_date [item07, item06] none = some item07 ∧
     parse_input_date "2024-03-05" = some ⟨2024, 3, 5⟩ ∧
     select_item_for_date [item07, item06] (some ⟨2024, 3, 5⟩) = none ∧
     summarize_available_dates [item07, item06] = "07 Mar 2024, 06 Mar 2024") := by
  refine ⟨?_, by refine ⟨by decide, by decide, by decide⟩, ?_, ?_,
    by refine ⟨by decide, by decide, by decide, by decide, by decide⟩⟩
  · intro raw items hav
    obtain ⟨hpair, hmem⟩ := available_items_spec raw items hav
    refine ⟨fun i hi => ⟨(hmem i hi).1, (hmem i hi).2.1, (hmem i hi).2.2.1⟩, ?_⟩
    intro first rest hitems
    refine ⟨select_none_head items first rest hitems, ?_⟩
    intro j hj
    subst hitems
    rw [List.pairwise_cons] at hpair
    rcases List.mem_cons.1 hj with rfl | hj'
    · exact le_refl _
    · exact hpair.1 j hj'
  · intro items t it h
    exact select_some_target items t it h
  · intro items t h
    exact select_no_match items t h

theorem c8_witness :
    ((∀ i ∈ [item07, item06], i ∈ feedTwoDays ∧
        (dget i "Date").isSome ∧ (dget i "key").isSome) ∧
      (∀ (first : Dict) (rest : List Dict), [item07, item06] = first :: rest →
        select_item_for_date [item07, item06] none = some first ∧
        ∀ j ∈ [item07, item06], itemKeyN j ≤ itemKeyN first)) ∧
    (item07 ∈ [item07, item06] ∧ itemDate item07 = some ⟨2024, 3, 7⟩) ∧
    select_item_for_date [item07, item06] (some ⟨2024, 3, 5⟩) = none :=
  ⟨c8_select_semantics.1 feedTwoDays [item07, item06] (by decide),
   c8_select_semantics.2.2.1 [item07, item06] ⟨2024, 3, 7⟩ item07 (by decide),
   c8_select_semantics.2.2.2.1 [item07, item06] ⟨2024, 3, 5⟩ (by decide)⟩

/-- Claim C9 counterexample: the warehouse-table mapping keys on the
`.zip` name suffix, not on the artifact kind.  In a run whose feed item
offers no primary "Data File" at all but whose secondary "TC Data File" is
a zip, the TC artifact is extracted and distributed into the
`WEBPXTICK_DT` partition — a non-primary artifact kind is partitioned,
refuting "exactly the primary data container maps to a warehouse table and
the other artifact kinds are stored flat, never partitioned". -/
theorem c9_tc_zip_partitioned :
    dget itemTC "Data File" = none ∧
    download_all_files envTC runState0 none =
      some (some "07 Mar 2024",
        { store := { rows := [{ file_name := "TC_20240307.zip", version_date := "2024-03-07",
                                checksum := "zipbytes", valid_from := "2024-03-07",
                                valid_to := none, rowid := 0 }],
                     nextId := 1,
                     fs := [("/data/raw/TC_20240307_2024-03-07.zip", "zipbytes"),
                            ("/data/warehouse/WEBPXTICK_DT/year=2024/month=03/day=07/member.csv", "x")] },
          uploads := ["raw/TC_20240307_2024-03-07.zip",
                      "derivative_data/WEBPXTICK_DT/year=2024/month=03/day=07/member.csv"] }) :=
  ⟨by decide, by decide⟩

/-- Claim C9 (amended): schema-kind artifacts (names ending
`_structure.dat`) are routed to the reference store and the
`derivative_reference` prefix, all other artifacts to the raw store and
the `raw` prefix; an artifact maps to the (single, hard-coded) warehouse
table `WEBPXTICK_DT` exactly when its lower-cased name ends in `.zip`,
and only then is it extracted and distributed — an artifact with no table
mapping is stored flat: its commit publishes exactly the one flat key and
nothing is partitioned.  In the expected feed, where only the primary data
container is a zip, exactly the primary container is partitioned. -/
theorem c9_routing_amended :
    (∀ fn : String, (routeFor fn).2.2 =
      (if strEndsWith (strToLower fn) ".zip" = true then some "WEBPXTICK_DT" else none)) ∧
    (∀ fn : String, strEndsWith fn "_structure.dat" = true →
      (routeFor fn).1 = REFERENCE_DIR ∧ (routeFor fn).2.1 = "derivative_reference") ∧
    (∀ fn : String, strEndsWith fn "_structure.dat" = false →
      (routeFor fn).1 = DOWNLOAD_DIR ∧ (routeFor fn).2.1 = "raw") ∧
    (∀ (env : Env) (st : RunState) (fp dir pfx : String) (day : Date) (p : String) (s1 : Store),
      store_if_changed env.hashOf st.store fp dir env.today = (StoreOutcome.stored p, s1) →
      process_file env st fp dir pfx day none =
        some (some p, { store := s1, uploads := st.uploads ++ [push_key pfx p] })) ∧
    (∀ (env : Env) (st : RunState) (fp dir pfx : String) (day : Date) (table p c : String)
       (s1 : Store) (members : List (String × String)),
      store_if_changed env.hashOf st.store fp dir env.today = (StoreOutcome.stored p, s1) →
      strEndsWith (strToLower p) ".zip" = true →
      fsGet s1.fs p = some c →
      env.unzip c = some members →
      ∃ stF, process_file env st fp dir pfx day (some table) = some (some p, stF) ∧
        stF.uploads = (st.uploads ++ [push_key pfx p]) ++ members.map
          (fun m => upload_warehouse_key (partition_dir table day ++ "/" ++ m.1) table day)) := by
  refine ⟨?_, ?_, ?_, ?_, ?_⟩
  · intro fn
    unfold routeFor
    by_cases hz : strEndsWith (strToLower fn) ".zip" = true
    · simp [hz]
    · simp only [Bool.not_eq_true] at hz
      simp [hz]
  · intro fn h
    unfold routeFor
    simp [h]
  · intro fn h
    unfold routeFor
    simp [h]
  · intro env st fp dir pfx day p s1 hst
    exact process_file_stored_none_eq env st fp dir pfx day p s1 hst
  · intro env st fp dir pfx day table p c s1 members hst hz hc hu
    rw [process_file_stored_zip_eq env st fp dir pfx day table p c s1 members hst hz hc hu]
    refine ⟨_, rfl, ?_⟩
    rw [mwu_uploads]

theorem c9_witness :
    ((routeFor "TickData_structure.dat").1 = REFERENCE_DIR ∧
      (routeFor "TickData_structure.dat").2.1 = "derivative_reference") ∧
    ((routeFor "WEBPXTICK_DT-20240307.zip").1 = DOWNLOAD_DIR ∧
      (routeFor "WEBPXTICK_DT-20240307.zip").2.1 = "raw") ∧
    (∃ stF, process_file envTC stZip "/data/raw/x.zip" "/data/raw" "raw" ⟨2024, 3, 7⟩
        (some "WEBPXTICK_DT") = some (some "/data/raw/x_2024-03-07.zip", stF) ∧
      stF.uploads = (stZip.uploads ++ [push_key "raw" "/data/raw/x_2024-03-07.zip"]) ++
        ([("member.csv", "x")] : List (String × String)).map
          (fun m => upload_warehouse_key
            (partition_dir "WEBPXTICK_DT" ⟨2024, 3, 7⟩ ++ "/" ++ m.1) "WEBPXTICK_DT" ⟨2024, 3, 7⟩)) :=
  ⟨c9_routing_amended.2.1 "TickData_structure.dat" (by decide),
   c9_routing_amended.2.2.1 "WEBPXTICK_DT-20240307.zip" (by decide),
   c9_routing_amended.2.2.2.2 envTC stZip "/data/raw/x.zip" "/data/raw" "raw" ⟨2024, 3, 7⟩
     "WEBPXTICK_DT" "/data/raw/x_2024-03-07.zip" "zipbytes"
     { rows := [{ file_name := "x.zip", version_date := "2024-03-07", checksum := "zipbytes",
                  valid_from := "2024-03-07", valid_to := none, rowid := 0 }],
       nextId := 1, fs := [("/data/raw/x_2024-03-07.zip", "zipbytes")] }
     [("member.csv", "x")] (by decide) (by decide) (by decide) (by decide)⟩
